import Mathlib

/-!
# telegraf_datagen: catalog builder, producer and sink

A shallow embedding of `metrics/metrics.go` and `sender/sender.go`.

Conventions of the embedding:

* Go `int`, `int64` and `time.Duration` values are embedded as `Int`; an `int`
  is 64 bits wide. In `metrics/metrics.go` the result of every arithmetic
  operation on them is reduced to 64 bits (`metrics.wrap64`), and `make`
  refuses a length above `metrics.maxLen`. The counters `retryCounter` and
  `BytesSent` of `sender/sender.go` count retries and bytes written and are
  added in `Int`.
* A Go `string` or `[]byte` is a list of bytes.
* Calls whose result the program does not determine (`net.Dial`, `conn.Write`,
  `uuid.New`, `math/rand`, `time.Now`, the order of a `range` over a map, the
  branch a `select` takes) read their result from an environment, indexed by
  the number of the call.
* `os.Exit` and a run-time panic end the run: they are outcomes of their own.
-/

namespace Datagen

/-- A Go byte slice (also the bytes of a Go string). -/
abbrev Bytes := List UInt8

namespace sender

/-! ## sender/sender.go -/

def MaxRetries : Int := 3
def SendBufferSizeBytes : Int := 1000

def STOPPED : Int := 0
def CONNECTING : Int := 1
def CONNECTED : Int := 2

/-- The statement that called `SendBytes`: the three calls in `Expedite`
(stop branch, flush-timer branch, size-threshold branch) or a direct call. -/
inductive Site
  | stop
  | tick
  | threshold
  | direct
  deriving DecidableEq, Repr

/-- One operation the endpoint performed on the network. -/
inductive NetOp
  | dial (ok : Bool)
  | write (site : Site) (data : Bytes) (ok : Bool)
  | close
  deriving DecidableEq, Repr

/-- The network: whether the `n`-th call of `net.Dial` and the `n`-th call of
`conn.Write` succeed (calls are numbered from 0). -/
structure Net where
  dial : Nat → Bool
  write : Nat → Bool

/-- The field `conn`: `nil`, an open connection, or one that was closed. -/
inductive Conn
  | nil
  | opened
  | closed
  deriving DecidableEq, Repr

/-- The fields of `Endpoint` the sink reads or writes, and the log of the
network operations performed so far (oldest first). -/
structure Endpoint where
  MaxRetries : Int
  SendBufferSizeBytes : Int
  retryCounter : Int
  BytesSent : Int
  conn : Conn
  State : Int
  log : List NetOp
  deriving DecidableEq, Repr

/-- `NewEndpoint`: the defaults. -/
def NewEndpoint : Endpoint :=
  { MaxRetries := MaxRetries, SendBufferSizeBytes := SendBufferSizeBytes,
    retryCounter := 0, BytesSent := 0, conn := Conn.nil, State := STOPPED, log := [] }

def NetOp.isDial : NetOp → Bool
  | NetOp.dial _ => true
  | _ => false

def NetOp.isWrite : NetOp → Bool
  | NetOp.write _ _ _ => true
  | _ => false

/-- Number of `net.Dial` calls made so far. -/
def Endpoint.dials (e : Endpoint) : Nat := e.log.countP NetOp.isDial

/-- Number of `conn.Write` calls made so far. -/
def Endpoint.writes (e : Endpoint) : Nat := e.log.countP NetOp.isWrite

/-- How a call on the endpoint ends. -/
inductive Outcome
  | returned (e : Endpoint)
  | exited (code : Int) (e : Endpoint)
  | panicked (e : Endpoint)
  | diverged
  deriving DecidableEq, Repr

/-- `Endpoint.Connect`. -/
def Connect (net : Net) (e : Endpoint) : Outcome :=
  let e1 := { e with State := CONNECTING }
  if e1.retryCounter ≥ e1.MaxRetries then
    Outcome.exited 127 e1
  else
    let ok := net.dial e1.dials
    let e2 := { e1 with conn := if ok then Conn.opened else Conn.nil,
                        log := e1.log ++ [NetOp.dial ok] }
    if !ok then
      match Connect net { e2 with retryCounter := e2.retryCounter + 1 } with
      | Outcome.returned e3 => Outcome.returned { e3 with State := CONNECTED }
      | o => o
    else
      Outcome.returned { e2 with State := CONNECTED }
termination_by (e.MaxRetries - e.retryCounter).toNat
decreasing_by
  simp_wf
  simp only [ge_iff_le, not_le] at *
  omega

/-- `conn.Write(b)`: the endpoint after the call and whether `err == nil`;
`none` when `conn` is nil (nil dereference). A closed connection refuses the
write. -/
def connWrite (net : Net) (site : Site) (e : Endpoint) (b : Bytes) : Option (Endpoint × Bool) :=
  match e.conn with
  | Conn.nil => none
  | Conn.opened =>
      let ok := net.write e.writes
      some ({ e with log := e.log ++ [NetOp.write site b ok] }, ok)
  | Conn.closed => some ({ e with log := e.log ++ [NetOp.write site b false] }, false)

/-- The loop of `SendBytes` once its condition `err != nil` holds: `err` is
assigned by the init statement only, so each turn is `e.Connect()` followed
by `e.retryCounter++`. The first argument bounds the number of turns. -/
def SendBytes.retry : Nat → Net → Endpoint → Outcome
  | 0, _, _ => Outcome.diverged
  | n + 1, net, e =>
      match Connect net e with
      | Outcome.returned e1 => SendBytes.retry n net { e1 with retryCounter := e1.retryCounter + 1 }
      | o => o

/-- `Endpoint.SendBytes`. The loop is given `MaxRetries - retryCounter + 1`
turns, which it never uses up (`SendBytes_retry_exits`). -/
def SendBytes (net : Net) (site : Site) (e : Endpoint) (b : Bytes) : Outcome :=
  match connWrite net site e b with
  | none => Outcome.panicked e
  | some (e1, true) => Outcome.returned e1
  | some (e1, false) => SendBytes.retry ((e1.MaxRetries - e1.retryCounter).toNat + 1) net e1

/-- What the `select` of `Expedite` received. -/
inductive Event
  | stop
  | tick
  | item (s : Bytes)
  deriving DecidableEq, Repr

/-- `conn.Close()`. -/
def connClose (e : Endpoint) : Option Endpoint :=
  match e.conn with
  | Conn.nil => none
  | _ => some { e with conn := Conn.closed, log := e.log ++ [NetOp.close] }

/-- `make([]byte, 0, cap)`. -/
def makeBuffer (cap : Int) : Option Bytes := if cap < 0 then none else some []

/-- The state of `Expedite` between two turns of its loop. -/
inductive Run
  | waiting (e : Endpoint) (buffer : Bytes)
  | done (o : Outcome)
  deriving DecidableEq, Repr

/-- `fmt.Sprintf("%s\n", item)` as bytes. -/
def line (item : Bytes) : Bytes := item ++ [10]

/-- After a flush that returned: `buffer = make([]byte, 0, e.SendBufferSizeBytes)`. -/
def freshBuffer (e : Endpoint) : Run :=
  match makeBuffer e.SendBufferSizeBytes with
  | none => Run.done (Outcome.panicked e)
  | some b => Run.waiting e b

/-- One turn of the loop of `Expedite`. -/
def Expedite.step (net : Net) (e : Endpoint) (buffer : Bytes) : Event → Run
  | Event.stop =>
      match SendBytes net Site.stop e buffer with
      | Outcome.returned e1 =>
          match connClose e1 with
          | none => Run.done (Outcome.panicked e1)
          | some e2 => Run.done (Outcome.returned { e2 with State := STOPPED })
      | o => Run.done o
  | Event.tick =>
      match SendBytes net Site.tick e buffer with
      | Outcome.returned e1 => freshBuffer e1
      | o => Run.done o
  | Event.item s =>
      let buffer1 := buffer ++ line s
      if (buffer1.length : Int) ≥ e.SendBufferSizeBytes then
        match SendBytes net Site.threshold e buffer1 with
        | Outcome.returned e1 =>
            freshBuffer { e1 with BytesSent := e1.BytesSent + (buffer1.length : Int) }
        | o => Run.done o
      else
        Run.waiting e buffer1

/-- The loop of `Expedite` over the events its `select` receives, in order.
When the events are used up the task is blocked in `select`. -/
def Expedite.loop (net : Net) : Endpoint → Bytes → List Event → Run
  | e, buffer, [] => Run.waiting e buffer
  | e, buffer, ev :: rest =>
      match Expedite.step net e buffer ev with
      | Run.waiting e1 buffer1 => Expedite.loop net e1 buffer1 rest
      | r => r

/-- `Endpoint.Expedite`. -/
def Expedite (net : Net) (e : Endpoint) (events : List Event) : Run :=
  match makeBuffer e.SendBufferSizeBytes with
  | none => Run.done (Outcome.panicked e)
  | some buffer => Expedite.loop net e buffer events

/-- The bytes of the successful writes of a log, concatenated in order. -/
def wire : List NetOp → Bytes
  | [] => []
  | NetOp.write _ d true :: ops => d ++ wire ops
  | _ :: ops => wire ops

/-- Number of bytes of the successful writes made from the sites `p` selects. -/
def bytesFrom (p : Site → Bool) : List NetOp → Nat
  | [] => 0
  | NetOp.write s d true :: ops => (if p s then d.length else 0) + bytesFrom p ops
  | _ :: ops => bytesFrom p ops

/-- The size-threshold flush of `Expedite`. -/
def Site.isThreshold : Site → Bool
  | Site.threshold => true
  | _ => false

/-- Every other call of `SendBytes`. -/
def Site.notThreshold : Site → Bool
  | Site.threshold => false
  | _ => true

/-- The items among the events, in order. -/
def items : List Event → List Bytes
  | [] => []
  | Event.item s :: evs => s :: items evs
  | _ :: evs => items evs

/-- The relation between the sink before (`e`, `buffer`) and after (`e1`,
`buffer1`) some turns of its loop on the events `evs`, none of them a stop,
in which every write succeeded: `ops` are the operations added to the log. -/
structure Flushed (e : Endpoint) (buffer : Bytes) (evs : List Event) (e1 : Endpoint)
    (buffer1 : Bytes) (ops : List NetOp) : Prop where
  log_eq : e1.log = e.log ++ ops
  cap_eq : e1.SendBufferSizeBytes = e.SendBufferSizeBytes
  conn_eq : e1.conn = e.conn
  sent_eq : e1.BytesSent = e.BytesSent + (bytesFrom Site.isThreshold ops : Nat)
  writes : ∀ op, op ∈ ops → ∃ s d, op = NetOp.write s d true
  bytes_eq : wire ops ++ buffer1 = buffer ++ ((items evs).map line).flatten

end sender

namespace metrics

/-! ## metrics/metrics.go -/

def TagSize : Int := 6
def MaxNumValuePerTag : Nat := 10

/-- The result of an arithmetic operation on `int` or `int64` (64 bits, two's
complement): the value of the same residue modulo `2^64` between `-2^63` and
`2^63 - 1`. -/
def wrap64 (x : Int) : Int :=
  (x + 9223372036854775808) % 18446744073709551616 - 9223372036854775808

/-- The largest length `make` accepts for a slice whose elements take 16 bytes
(a `string`, an interface value): `maxAlloc / 16`, with `maxAlloc = 2^48` on a
64-bit platform. Above it `make` panics (`len out of range`), as it does on a
negative length. -/
def maxLen : Int := 17592186044416

/-- An ASCII string literal as bytes. -/
def str (s : String) : Bytes := s.toList.map (fun ch => UInt8.ofNat ch.toNat)

/-- The result of `uuid.New().String()`: 36 bytes. -/
abbrev Uuid := { s : Bytes // s.length = 36 }

/-- A `float64` value. Floating-point arithmetic is not modelled: the value of
a float expression of the program is read from the environment. -/
abbrev Float64 := Nat

/-- What the program reads from outside, by call number (from 0).
* `uuid k`: the `k`-th `uuid.New().String()`;
* `intn k`: the `k`-th draw of `rand.Intn(n)` or `rand.Int63n(n)` is `intn k % n`;
* `floatInit k`, `floatChange k v`: the `k`-th float draw, as the value of
  `rand.NormFloat64() * 100` and of `v + rand.NormFloat64() * 10`;
* `order k`: the order in which the `k`-th `range` over a map visits it;
* `setItems`: whether `set.New(1000)` of the set library in use returns the
  set holding 1000 (its arguments are the initial items) or the empty set;
* `parse layout s`: `time.Parse(layout, s)` as Unix nanoseconds, `none` on error;
* `now k`: the `k`-th `time.Now().UnixNano()`;
* `stop k`: whether the `k`-th `select` of the producer receives from `Stop`. -/
structure Env where
  uuid : Nat → Uuid
  intn : Nat → Nat
  floatInit : Nat → Float64
  floatChange : Nat → Float64 → Float64
  order : Nat → Nat
  setItems : Bool
  parse : Bytes → Bytes → Option Int
  now : Nat → Int
  stop : Nat → Bool

/-- How many calls of each kind were made so far. -/
structure Cursor where
  uuids : Nat
  ints : Nat
  floats : Nat
  ranges : Nat
  clocks : Nat
  selects : Nat
  deriving DecidableEq, Repr

def Cursor.zero : Cursor := ⟨0, 0, 0, 0, 0, 0⟩

/-- Why a call did not return: a run-time panic, or a loop that was still
running when its fuel was used up. -/
inductive Fault
  | panic
  | outOfFuel
  deriving DecidableEq, Repr

/-- An order of visiting `l`, chosen by `seed`: each element is inserted at a
position the seed selects. Every order is obtained from some seed. -/
def shuffle {α : Type} : Nat → List α → List α
  | _, [] => []
  | seed, x :: xs =>
      List.insertIdx (seed % (xs.length + 1)) x (shuffle (seed / (xs.length + 1)) xs)

/-- `rand.Intn(n)` and `rand.Int63n(n)` on a non-negative `n`; both panic on 0. -/
def Intn (env : Env) (n : Nat) (cur : Cursor) : Except Fault (Nat × Cursor) :=
  if n = 0 then Except.error Fault.panic
  else Except.ok (env.intn cur.ints % n, { cur with ints := cur.ints + 1 })

/-- `uuid.New().String()[:n]`. -/
def uuidPrefix (env : Env) (n : Int) (cur : Cursor) : Except Fault (Bytes × Cursor) :=
  if 0 ≤ n ∧ n ≤ 36 then
    Except.ok ((env.uuid cur.uuids).val.take n.toNat, { cur with uuids := cur.uuids + 1 })
  else Except.error Fault.panic

inductive Metric
  | MetricInt (name tags : Bytes) (value : Int)
  | MetricFloat (name tags : Bytes) (value : Float64)
  | MetricBool (name tags : Bytes) (value : Bool)
  deriving DecidableEq, Repr

/-- The three implementations of the interface `Metric`. -/
inductive Kind
  | int
  | float
  | bool
  deriving DecidableEq, Repr

def Metric.kind : Metric → Kind
  | Metric.MetricInt _ _ _ => Kind.int
  | Metric.MetricFloat _ _ _ => Kind.float
  | Metric.MetricBool _ _ _ => Kind.bool

def Metric.name : Metric → Bytes
  | Metric.MetricInt n _ _ => n
  | Metric.MetricFloat n _ _ => n
  | Metric.MetricBool n _ _ => n

def Metric.tags : Metric → Bytes
  | Metric.MetricInt _ t _ => t
  | Metric.MetricFloat _ t _ => t
  | Metric.MetricBool _ t _ => t

/-- `Change` of the three metric types. -/
def Metric.Change (env : Env) (cur : Cursor) : Metric → Except Fault (Metric × Cursor)
  | Metric.MetricInt n t v =>
      match Intn env 10 cur with
      | Except.error f => Except.error f
      | Except.ok (r, cur1) =>
          Except.ok (Metric.MetricInt n t (wrap64 (v + ((r : Int) - 4))), cur1)
  | Metric.MetricFloat n t v =>
      Except.ok (Metric.MetricFloat n t (env.floatChange cur.floats v),
        { cur with floats := cur.floats + 1 })
  | Metric.MetricBool n t _ =>
      match Intn env 20 cur with
      | Except.error f => Except.error f
      | Except.ok (r, cur1) => Except.ok (Metric.MetricBool n t (decide (r < 16)), cur1)

/-- `NewMetricInt`, `NewMetricFloat`, `NewMetricBool`. -/
def NewMetric (env : Env) (kind : Kind) (name tags : Bytes) (cur : Cursor) :
    Except Fault (Metric × Cursor) :=
  match kind with
  | Kind.int =>
      match Intn env 1000 cur with
      | Except.error f => Except.error f
      | Except.ok (r, cur1) => Except.ok (Metric.MetricInt name tags (r : Int), cur1)
  | Kind.float =>
      Except.ok (Metric.MetricFloat name tags (env.floatInit cur.floats),
        { cur with floats := cur.floats + 1 })
  | Kind.bool => Except.ok (Metric.MetricBool name tags true, cur)

/-- `type TagsFactory map[string][]string`: a Go map, as a list of entries with
distinct keys. -/
abbrev TagsFactory := AList (fun _ : Bytes => List Bytes)

/-- The entries of a map in the order the `range` statement visits them. -/
def rangeOver {β : Type} (env : Env) (cur : Cursor) (m : AList (fun _ : Bytes => β)) :
    List (Sigma (fun _ : Bytes => β)) × Cursor :=
  (shuffle (env.order cur.ranges) m.entries, { cur with ranges := cur.ranges + 1 })

/-- The loop `for i := 0; i < v; i++` of `NewTagsFactoryFromList`, which sets
`tf[k][i] = uuid.New().String()[:TagSize]`, by the number of turns left. -/
def newValues (env : Env) : Nat → Cursor → Except Fault (List Bytes × Cursor)
  | 0, cur => Except.ok ([], cur)
  | n + 1, cur =>
      match uuidPrefix env TagSize cur with
      | Except.error f => Except.error f
      | Except.ok (u, cur1) =>
          match newValues env n cur1 with
          | Except.error f => Except.error f
          | Except.ok (us, cur2) => Except.ok (u :: us, cur2)

/-- The body of the `range` of `NewTagsFactoryFromList`; `make([]string, v)`
panics on a negative `v` and on a `v` above `maxLen`. -/
def fromListLoop (env : Env) :
    List (Sigma (fun _ : Bytes => Int)) → TagsFactory → Cursor → Except Fault (TagsFactory × Cursor)
  | [], tf, cur => Except.ok (tf, cur)
  | ⟨k, v⟩ :: rest, tf, cur =>
      if v < 0 ∨ maxLen < v then Except.error Fault.panic
      else
        match newValues env v.toNat cur with
        | Except.error f => Except.error f
        | Except.ok (vals, cur1) => fromListLoop env rest (tf.insert k vals) cur1

def NewTagsFactoryFromList (env : Env) (tagList : AList (fun _ : Bytes => Int)) (cur : Cursor) :
    Except Fault (TagsFactory × Cursor) :=
  fromListLoop env (rangeOver env cur tagList).1 ∅ (rangeOver env cur tagList).2

/-- The inner loop of `NewTagsFactoryFromNum`:
`tf[tagName] = append(tf[tagName], "_" + uuid.New().String()[:TagSize])`. -/
def appendValues (env : Env) (tagName : Bytes) :
    Nat → TagsFactory → Cursor → Except Fault (TagsFactory × Cursor)
  | 0, tf, cur => Except.ok (tf, cur)
  | n + 1, tf, cur =>
      match uuidPrefix env TagSize cur with
      | Except.error f => Except.error f
      | Except.ok (u, cur1) =>
          appendValues env tagName n
            (tf.insert tagName (((tf.lookup tagName).getD []) ++ [str "_" ++ u])) cur1

/-- The outer loop of `NewTagsFactoryFromNum`, by the number of turns left. -/
def fromNumLoop (env : Env) : Nat → TagsFactory → Cursor → Except Fault (TagsFactory × Cursor)
  | 0, tf, cur => Except.ok (tf, cur)
  | n + 1, tf, cur =>
      match uuidPrefix env TagSize cur with
      | Except.error f => Except.error f
      | Except.ok (u, cur1) =>
          match appendValues env (str "tag_" ++ u) MaxNumValuePerTag tf cur1 with
          | Except.error f => Except.error f
          | Except.ok (tf1, cur2) => fromNumLoop env n tf1 cur2

/-- `NewTagsFactoryFromNum`. A negative size hint of `make` for a map is ignored,
and the loop `for t := 0; t < numTags; t++` makes `numTags.toNat` turns. -/
def NewTagsFactoryFromNum (env : Env) (numTags : Int) (cur : Cursor) :
    Except Fault (TagsFactory × Cursor) :=
  fromNumLoop env numTags.toNat ∅ cur

/-- `fmt.Sprintf("%s=%s", k, v)`. -/
def kv (k v : Bytes) : Bytes := k ++ str "=" ++ v

/-- The body of the `range` of `KVAllTags`: one pair per entry, its value drawn
by `rand.Intn(len(v))`. -/
def kvAll (env : Env) :
    List (Sigma (fun _ : Bytes => List Bytes)) → Cursor → Except Fault (List (Bytes × Bytes) × Cursor)
  | [], cur => Except.ok ([], cur)
  | ⟨s, v⟩ :: rest, cur =>
      match Intn env v.length cur with
      | Except.error f => Except.error f
      | Except.ok (ind, cur1) =>
          match v.get? ind with
          | none => Except.error Fault.panic
          | some x =>
              match kvAll env rest cur1 with
              | Except.error f => Except.error f
              | Except.ok (arr, cur2) => Except.ok ((s, x) :: arr, cur2)

/-- The key and value of each entry `KVAllTags` returns, in order. -/
def KVAllTags.pairs (env : Env) (tf : TagsFactory) (cur : Cursor) :
    Except Fault (List (Bytes × Bytes) × Cursor) :=
  kvAll env (rangeOver env cur tf).1 (rangeOver env cur tf).2

/-- `TagsFactory.KVAllTags`. -/
def KVAllTags (env : Env) (tf : TagsFactory) (cur : Cursor) : Except Fault (List Bytes × Cursor) :=
  match KVAllTags.pairs env tf cur with
  | Except.error f => Except.error f
  | Except.ok (ps, cur1) => Except.ok (ps.map (fun p => kv p.1 p.2), cur1)

/-- `set.New(1000)`. -/
def setNew1000 (env : Env) : List Nat := if env.setItems then [1000] else []

/-- `s.Add(x)` on a set of integers kept as a list without duplicates. -/
def setAdd (x : Nat) (s : List Nat) : List Nat := if x ∈ s then s else s ++ [x]

/-- The loop `for s.Size() < numTags` of `KVSomeTags`, whose body is
`s.Add(rand.Intn(len(tf)))`; the first argument bounds the number of turns. -/
def roulette (env : Env) (n : Nat) (numTags : Int) :
    Nat → List Nat → Cursor → Except Fault (List Nat × Cursor)
  | 0, s, cur =>
      if (s.length : Int) < numTags then Except.error Fault.outOfFuel else Except.ok (s, cur)
  | gas + 1, s, cur =>
      if (s.length : Int) < numTags then
        match Intn env n cur with
        | Except.error f => Except.error f
        | Except.ok (x, cur1) => roulette env n numTags gas (setAdd x s) cur1
      else Except.ok (s, cur)

/-- The body of the `range` of `KVSomeTags`: the entries whose number is in the set. -/
def kvSome (env : Env) (s : List Nat) :
    List (Sigma (fun _ : Bytes => List Bytes)) → Nat → Cursor →
      Except Fault (List (Bytes × Bytes) × Cursor)
  | [], _, cur => Except.ok ([], cur)
  | ⟨k, v⟩ :: rest, count, cur =>
      if count ∈ s then
        match Intn env v.length cur with
        | Except.error f => Except.error f
        | Except.ok (ind, cur1) =>
            match v.get? ind with
            | none => Except.error Fault.panic
            | some x =>
                match kvSome env s rest (count + 1) cur1 with
                | Except.error f => Except.error f
                | Except.ok (arr, cur2) => Except.ok ((k, x) :: arr, cur2)
      else kvSome env s rest (count + 1) cur

/-- The key and value of each entry `KVSomeTags` returns, in order. -/
def KVSomeTags.pairs (env : Env) (gas : Nat) (tf : TagsFactory) (numTags : Int) (cur : Cursor) :
    Except Fault (List (Bytes × Bytes) × Cursor) :=
  match roulette env tf.entries.length numTags gas (setNew1000 env) cur with
  | Except.error f => Except.error f
  | Except.ok (s, cur1) => kvSome env s (rangeOver env cur1 tf).1 0 (rangeOver env cur1 tf).2

/-- `TagsFactory.KVSomeTags`. -/
def KVSomeTags (env : Env) (gas : Nat) (tf : TagsFactory) (numTags : Int) (cur : Cursor) :
    Except Fault (List Bytes × Cursor) :=
  match KVSomeTags.pairs env gas tf numTags cur with
  | Except.error f => Except.error f
  | Except.ok (ps, cur1) => Except.ok (ps.map (fun p => kv p.1 p.2), cur1)

/-- `strings.Join(a, ",")`. -/
def join (a : List Bytes) : Bytes := (str ",").intercalate a

/-- The expression
`strings.Join(append(mandatoryTagMap.KVAllTags(), optionalTagMap.KVSomeTags(optionalTag)...), ",")`. -/
def tagString (env : Env) (gas : Nat) (mand opt : TagsFactory) (optionalTag : Int)
    (cur : Cursor) : Except Fault (Bytes × Cursor) :=
  match KVAllTags env mand cur with
  | Except.error f => Except.error f
  | Except.ok (a, cur1) =>
      match KVSomeTags env gas opt optionalTag cur1 with
      | Except.error f => Except.error f
      | Except.ok (b, cur2) => Except.ok (join (a ++ b), cur2)

structure ConfigSet where
  IntRatio : Int
  FloatRatio : Int
  TagSize : Int
  MetricPerMetricNameRatio : Int
  TagsPerMetric : Int
  MaxNumValuePerTag : Int
  MetricNameSize : Int
  BufferSize : Int
  NumMetrics : Int
  NumTags : Int
  MandatoryTags : AList (fun _ : Bytes => Int)
  Start : Bytes
  End : Bytes
  Step : Int
  Continuous : Bool

/-- `"int."`, `"float."`, `"bool."`. -/
def Kind.namePrefix : Kind → Bytes
  | Kind.int => str "int."
  | Kind.float => str "float."
  | Kind.bool => str "bool."

/-- The loop `for m := 0; m < numPerMetricName && i < c.NumMetrics; m++` of the
three branches of `NewMetricFactory` (they differ in the constructor only),
by the number `numPerMetricName - m` of turns left: it returns `i` and `ml`. -/
def fillRun (env : Env) (gas : Nat) (numMetrics : Int) (mand opt : TagsFactory)
    (optionalTag : Int) (kind : Kind) (metricName : Bytes) :
    Nat → Int → List (Option Metric) → Cursor →
      Except Fault (Int × List (Option Metric) × Cursor)
  | 0, i, ml, cur => Except.ok (i, ml, cur)
  | left + 1, i, ml, cur =>
      if i < numMetrics then
        match tagString env gas mand opt optionalTag cur with
        | Except.error f => Except.error f
        | Except.ok (mt, cur1) =>
            match NewMetric env kind metricName mt cur1 with
            | Except.error f => Except.error f
            | Except.ok (m, cur2) =>
                fillRun env gas numMetrics mand opt optionalTag kind metricName left
                  (wrap64 (i + 1)) (ml.set i.toNat (some m)) cur2
      else Except.ok (i, ml, cur)

/-- The branch of the loop of `NewMetricFactory` taken at index `i`. -/
def kindAt (limitInt limitFloat i : Int) : Kind :=
  if i < limitInt then Kind.int else if i < limitFloat then Kind.float else Kind.bool

/-- The loop `for` of `NewMetricFactory`, left by `break` when
`i >= c.NumMetrics`; the first argument bounds the number of turns. -/
def catalogLoop (env : Env) (gas : Nat) (c : ConfigSet) (mand opt : TagsFactory)
    (optionalTag limitInt limitFloat numPerMetricName : Int) :
    Nat → Int → List (Option Metric) → Cursor → Except Fault (List (Option Metric) × Cursor)
  | 0, _, _, _ => Except.error Fault.outOfFuel
  | fuel + 1, i, ml, cur =>
      if i ≥ c.NumMetrics then Except.ok (ml, cur)
      else
        match uuidPrefix env c.MetricNameSize cur with
        | Except.error f => Except.error f
        | Except.ok (u, cur1) =>
            match fillRun env gas c.NumMetrics mand opt optionalTag
                (kindAt limitInt limitFloat i) ((kindAt limitInt limitFloat i).namePrefix ++ u)
                numPerMetricName.toNat i ml cur1 with
            | Except.error f => Except.error f
            | Except.ok (i1, ml1, cur2) =>
                catalogLoop env gas c mand opt optionalTag limitInt limitFloat numPerMetricName
                  fuel i1 ml1 cur2

/-- `limitInt` of `NewMetricFactory` (Go's `/` on `int` truncates). -/
def limitInt (c : ConfigSet) : Int := Int.tdiv (wrap64 (c.NumMetrics * c.IntRatio)) 100

/-- `limitFloat` of `NewMetricFactory`. -/
def limitFloat (c : ConfigSet) : Int :=
  Int.tdiv (wrap64 (c.NumMetrics * wrap64 (c.FloatRatio + c.IntRatio))) 100

/-- `numPerMetricName` of `NewMetricFactory`, after the `if` that makes a 0 a 1. -/
def numPerMetricName (c : ConfigSet) : Int :=
  if Int.tdiv (wrap64 (c.NumMetrics * c.MetricPerMetricNameRatio)) 100 = 0 then 1
  else Int.tdiv (wrap64 (c.NumMetrics * c.MetricPerMetricNameRatio)) 100

/-- `optionalTag` of `NewMetricFactory`. -/
def optionalTag (c : ConfigSet) : Int :=
  wrap64 (c.TagsPerMetric - (c.MandatoryTags.entries.length : Int))

/-- `NewMetricFactory` from `ml := make([]Metric, c.NumMetrics)` to the end of
its loop, given the two tag factories. -/
def fillCatalog (env : Env) (gas fuel : Nat) (c : ConfigSet) (mand opt : TagsFactory)
    (cur : Cursor) : Except Fault (List (Option Metric) × Cursor) :=
  if c.NumMetrics < 0 ∨ maxLen < c.NumMetrics then Except.error Fault.panic
  else
    catalogLoop env gas c mand opt (optionalTag c) (limitInt c) (limitFloat c)
      (numPerMetricName c) fuel 0 (List.replicate c.NumMetrics.toNat none) cur

/-- `NewMetricFactory` up to the end of its loop: the metric list. -/
def buildCatalog (env : Env) (gas fuel : Nat) (c : ConfigSet) (cur : Cursor) :
    Except Fault (List (Option Metric) × Cursor) :=
  match NewTagsFactoryFromList env c.MandatoryTags cur with
  | Except.error f => Except.error f
  | Except.ok (mand, cur1) =>
      match NewTagsFactoryFromNum env (optionalTag c) cur1 with
      | Except.error f => Except.error f
      | Except.ok (opt, cur2) => fillCatalog env gas fuel c mand opt cur2

def longForm : Bytes := str "2006-01-02 15:04:05"
def shortForm : Bytes := str "2006-01-02"

/-- `parseTimeStamp(s).UnixNano()`. -/
def parseTimeStamp (env : Env) (s : Bytes) : Except Fault Int :=
  match env.parse longForm s with
  | some t => Except.ok t
  | none =>
      match env.parse shortForm s with
      | some t => Except.ok t
      | none => Except.error Fault.panic

/-- One string pushed onto `Output`, `fmt.Sprintf("%s %d", metric.String(), mf.timestamp)`,
kept as its two arguments: the metric as it was when rendered, and the timestamp. -/
structure Record where
  metric : Metric
  timestamp : Int
  deriving DecidableEq, Repr

/-- The fields of `MetricFactory`. `Output` is every record pushed so far, oldest
first (the consumer never lets the channel fill up); `closed` is whether
`close(mf.Output)` was called. A `nil` slot of `metricList` is `none`. -/
structure MetricFactory where
  metricList : List (Option Metric)
  timestamp : Int
  step : Int
  endTimestamp : Int
  continuous : Bool
  Counter : Int
  Output : List Record
  closed : Bool
  deriving DecidableEq, Repr

/-- `NewMetricFactory`; `make(chan string, c.BufferSize)` panics on a negative size
and on a size whose buffer, with the 96 bytes of the channel header, exceeds
`maxAlloc`. -/
def NewMetricFactory (env : Env) (gas fuel : Nat) (c : ConfigSet) (cur : Cursor) :
    Except Fault (MetricFactory × Cursor) :=
  match buildCatalog env gas fuel c cur with
  | Except.error f => Except.error f
  | Except.ok (ml, cur1) =>
      match parseTimeStamp env c.Start with
      | Except.error f => Except.error f
      | Except.ok t0 =>
          match parseTimeStamp env c.End with
          | Except.error f => Except.error f
          | Except.ok t1 =>
              if c.BufferSize < 0 ∨ maxLen - 6 < c.BufferSize then Except.error Fault.panic
              else
                Except.ok ({ metricList := ml, timestamp := t0, step := c.Step,
                             endTimestamp := t1, continuous := c.Continuous, Counter := 0,
                             Output := [], closed := false }, cur1)

/-- The statement `for _, metric := range mf.metricList` of `Produce` and
`ProduceNow` over the slots not visited yet: it returns the visited slots
(the metrics are pointers, `Change` updates them in place). -/
def rangeMetrics (env : Env) :
    List (Option Metric) → MetricFactory → Cursor →
      Except Fault (List (Option Metric) × MetricFactory × Cursor)
  | [], mf, cur => Except.ok ([], mf, cur)
  | none :: _, _, _ => Except.error Fault.panic
  | some metric :: rest, mf, cur =>
      match metric.Change env cur with
      | Except.error f => Except.error f
      | Except.ok (metric1, cur1) =>
          match rangeMetrics env rest
              { mf with Output := mf.Output ++ [⟨metric, mf.timestamp⟩],
                        Counter := wrap64 (mf.Counter + 1) } cur1 with
          | Except.error f => Except.error f
          | Except.ok (ms, mf1, cur2) => Except.ok (some metric1 :: ms, mf1, cur2)

/-- One round: the `range` statement over the whole metric list. -/
def round (env : Env) (mf : MetricFactory) (cur : Cursor) : Except Fault (MetricFactory × Cursor) :=
  match rangeMetrics env mf.metricList mf cur with
  | Except.error f => Except.error f
  | Except.ok (ms, mf1, cur1) => Except.ok ({ mf1 with metricList := ms }, cur1)

/-- The loop of `ProduceNow`: each `select` receives from `Stop` or from the
ticker; the first argument bounds the number of turns. -/
def ProduceNow.loop (env : Env) : Nat → MetricFactory → Cursor → Except Fault (MetricFactory × Cursor)
  | 0, _, _ => Except.error Fault.outOfFuel
  | fuel + 1, mf, cur =>
      if env.stop cur.selects then
        Except.ok ({ mf with closed := true }, { cur with selects := cur.selects + 1 })
      else
        match round env { mf with timestamp := env.now cur.clocks }
            { cur with selects := cur.selects + 1, clocks := cur.clocks + 1 } with
        | Except.error f => Except.error f
        | Except.ok (mf1, cur1) => ProduceNow.loop env fuel mf1 cur1

/-- `MetricFactory.ProduceNow`; `time.NewTicker` panics unless its argument is positive. -/
def ProduceNow (env : Env) (fuel : Nat) (mf : MetricFactory) (cur : Cursor) :
    Except Fault (MetricFactory × Cursor) :=
  if mf.step ≤ 0 then Except.error Fault.panic else ProduceNow.loop env fuel mf cur

/-- The loop of `Produce`; the second argument bounds the number of turns.
`mf.timestamp += incStep` is an `int64` addition. -/
def Produce.loop (env : Env) (incStep : Int) :
    Nat → MetricFactory → Cursor → Except Fault (MetricFactory × Cursor)
  | 0, _, _ => Except.error Fault.outOfFuel
  | fuel + 1, mf, cur =>
      if env.stop cur.selects then
        Except.ok ({ mf with closed := true }, { cur with selects := cur.selects + 1 })
      else
        match round env mf { cur with selects := cur.selects + 1 } with
        | Except.error f => Except.error f
        | Except.ok (mf1, cur1) =>
            if mf1.continuous then
              if wrap64 (mf1.timestamp + incStep) ≥ env.now cur1.clocks then
                ProduceNow env fuel { mf1 with timestamp := wrap64 (mf1.timestamp + incStep) }
                  { cur1 with clocks := cur1.clocks + 1 }
              else if wrap64 (mf1.timestamp + incStep) ≥ mf1.endTimestamp then
                Except.ok ({ mf1 with timestamp := wrap64 (mf1.timestamp + incStep),
                                      closed := true },
                  { cur1 with clocks := cur1.clocks + 1 })
              else
                Produce.loop env incStep fuel
                  { mf1 with timestamp := wrap64 (mf1.timestamp + incStep) }
                  { cur1 with clocks := cur1.clocks + 1 }
            else if wrap64 (mf1.timestamp + incStep) ≥ mf1.endTimestamp then
              Except.ok ({ mf1 with timestamp := wrap64 (mf1.timestamp + incStep),
                                    closed := true }, cur1)
            else
              Produce.loop env incStep fuel
                { mf1 with timestamp := wrap64 (mf1.timestamp + incStep) } cur1

/-- `MetricFactory.Produce`, with `incStep := mf.step.Nanoseconds()`. -/
def Produce (env : Env) (fuel : Nat) (mf : MetricFactory) (cur : Cursor) :
    Except Fault (MetricFactory × Cursor) :=
  Produce.loop env mf.step fuel mf cur

end metrics
namespace metrics

/-! ## Concrete configurations and environments -/

/-- A configuration without tags: `num_metrics = 10`, `int_ratio = 25`,
`float_ratio = 25`, `metric_per_metricname_ratio = 50`. -/
def halfRunConfig : ConfigSet :=
  { IntRatio := 25, FloatRatio := 25, TagSize := 6, MetricPerMetricNameRatio := 50,
    TagsPerMetric := 0, MaxNumValuePerTag := 10, MetricNameSize := 20, BufferSize := 100,
    NumMetrics := 10, NumTags := 0, MandatoryTags := ∅, Start := [], End := [], Step := 1,
    Continuous := false }

/-- The configuration `halfRunConfig` with `num_metrics = 3` and
`metric_per_metricname_ratio = 2^62`: their product is `3 * 2^62`, which is
`-2^62` as an `int`. -/
def wrapRunConfig : ConfigSet :=
  { halfRunConfig with NumMetrics := 3, MetricPerMetricNameRatio := 4611686018427387904 }

/-- What `Change` leaves alone: the type, the name and the tag string. -/
def Metric.series (m : Metric) : Kind × Bytes × Bytes := (m.kind, m.name, m.tags)

/-- The series and the timestamp of a record. -/
def Record.key (r : Record) : (Kind × Bytes × Bytes) × Int := (r.metric.series, r.timestamp)

/-- The keys of the records of one round over the series `ser` stamped `ts`. -/
def roundKeys (ser : List (Kind × Bytes × Bytes)) (ts : Int) :
    List ((Kind × Bytes × Bytes) × Int) :=
  ser.map (fun x => (x, ts))

/-- The uuid `"000000000000000000000000000000000000"`. -/
def zeroUuid : Uuid := ⟨List.replicate 36 48, by simp⟩

/-- An environment in which `Stop` never receives, `time.Parse` knows the two
instants `2024-01-01 00:00:00` and `2024-01-01 00:02:00` (UTC), and the `k`-th
random draw is `k`. -/
def exampleEnv : Env :=
  { uuid := fun _ => zeroUuid, intn := fun k => k, floatInit := fun _ => 0,
    floatChange := fun _ v => v, order := fun _ => 0, setItems := true,
    parse := fun layout s =>
      if layout = longForm then
        if s = str "2024-01-01 00:00:00" then some 1704067200000000000
        else if s = str "2024-01-01 00:02:00" then some 1704067320000000000
        else none
      else none,
    now := fun _ => 1800000000000000000, stop := fun _ => false }

/-- The configuration `count = 3`, `int_ratio = 100`, a two-minute interval
and a step of one minute, without tags. -/
def threeIntConfig : ConfigSet :=
  { IntRatio := 100, FloatRatio := 0, TagSize := 6, MetricPerMetricNameRatio := 2,
    TagsPerMetric := 0, MaxNumValuePerTag := 10, MetricNameSize := 20, BufferSize := 100000,
    NumMetrics := 3, NumTags := 0, MandatoryTags := ∅, Start := str "2024-01-01 00:00:00",
    End := str "2024-01-01 00:02:00", Step := 60000000000, Continuous := false }

/-- The same configuration with `end = start`. -/
def sameInstantConfig : ConfigSet :=
  { threeIntConfig with End := str "2024-01-01 00:00:00" }

/-- A factory of three integer metrics over the two-minute interval. -/
def threeIntFactory : MetricFactory :=
  { metricList := [some (Metric.MetricInt (str "int.a") [] 1),
                   some (Metric.MetricInt (str "int.b") [] 2),
                   some (Metric.MetricInt (str "int.c") [] 3)],
    timestamp := 1704067200000000000, step := 60000000000,
    endTimestamp := 1704067320000000000, continuous := false, Counter := 0, Output := [],
    closed := false }

/-- The pairs `ps` have their values among the values `tf` holds for their keys. -/
def ValuesFrom (tf : TagsFactory) (ps : List (Bytes × Bytes)) : Prop :=
  ∀ p ∈ ps, ∃ vals, tf.lookup p.1 = some vals ∧ p.2 ∈ vals

/-- The tag string `t` is the join of the entries `key=value` of the pairs `a`
followed by those of the pairs `b`, where `a` has exactly one pair per key of
`mand` and `b` has pairs of distinct keys of `opt`, each value being one of
the values of its key. -/
def WellTagged (mand opt : TagsFactory) (t : Bytes) : Prop :=
  ∃ a b : List (Bytes × Bytes),
    t = join ((a ++ b).map (fun p => kv p.1 p.2)) ∧
    (a.map Prod.fst).Perm mand.keys ∧ ValuesFrom mand a ∧
    (b.map Prod.fst).Nodup ∧ b.length ≤ opt.entries.length ∧ ValuesFrom opt b

/-- The factory `threeIntFactory` with a step of `2^63 - 1` nanoseconds. -/
def longStepFactory : MetricFactory :=
  { threeIntFactory with step := 9223372036854775807 }

/-- The environment `exampleEnv` with a stop signal received by the third `select`. -/
def stopThirdEnv : Env :=
  { exampleEnv with stop := fun k => decide (k = 2) }

/-- The environment `exampleEnv` with uuids that differ in their first digit. -/
def variedEnv : Env :=
  { exampleEnv with
    uuid := fun k => ⟨UInt8.ofNat (97 + k % 6) :: List.replicate 35 48, by simp⟩ }

/-- Two metrics, one mandatory tag `host` with two values, and a budget of three
tags per metric. -/
def taggedConfig : ConfigSet :=
  { threeIntConfig with
    NumMetrics := 2, TagsPerMetric := 3, MandatoryTags := AList.insert (str "host") 2 ∅ }

/-- The same with a budget of no tag per metric. -/
def tightConfig : ConfigSet :=
  { taggedConfig with TagsPerMetric := 0 }

/-- The same with the least `int` as budget: `TagsPerMetric = -2^63`. -/
def minBudgetConfig : ConfigSet :=
  { taggedConfig with TagsPerMetric := -9223372036854775808 }

end metrics
namespace sender

/-! ### Lemmas on `Connect` and `SendBytes` -/

theorem dials_append_dial (l : List NetOp) (ok : Bool) :
    List.countP NetOp.isDial (l ++ [NetOp.dial ok]) = List.countP NetOp.isDial l + 1 := by
  simp [List.countP_append, NetOp.isDial]

theorem writes_append_write (l : List NetOp) (s : Site) (d : Bytes) (ok : Bool) :
    List.countP NetOp.isWrite (l ++ [NetOp.write s d ok]) = List.countP NetOp.isWrite l + 1 := by
  simp [List.countP_append, NetOp.isWrite]

/-- `k` failing dials followed by a successful one, within the retry budget. -/
theorem Connect_fail_then_ok (net : Net) (k : Nat) : ∀ e : Endpoint,
    (∀ j, j < k → net.dial (e.dials + j) = false) → net.dial (e.dials + k) = true →
    e.retryCounter + (k : Int) < e.MaxRetries →
    Connect net e = Outcome.returned
      { e with State := CONNECTED, retryCounter := e.retryCounter + (k : Int), conn := Conn.opened,
               log := e.log ++ List.replicate k (NetOp.dial false) ++ [NetOp.dial true] } := by
  induction k with
  | zero =>
    rintro ⟨M, T, rc, bs, c, st, lg⟩ _ hk hlt
    simp only [Endpoint.dials, Nat.add_zero, Nat.cast_zero, add_zero] at hk hlt
    rw [Connect]
    simp [Endpoint.dials, hk, hlt]
  | succ k ih =>
    rintro ⟨M, T, rc, bs, c, st, lg⟩ hj hk hlt
    simp only [Endpoint.dials] at hj hk hlt
    have h0 : net.dial (List.countP NetOp.isDial lg) = false := by simpa using hj 0 (Nat.succ_pos k)
    have h1 : rc < M := by push_cast at hlt; omega
    rw [Connect]
    simp only [Endpoint.dials, h0, ge_iff_le, not_le.mpr h1, if_false, Bool.not_false, if_true,
      Bool.false_eq_true]
    rw [ih ⟨M, T, rc + 1, bs, Conn.nil, CONNECTING, lg ++ [NetOp.dial false]⟩
      (by
        intro j hjk
        simp only [Endpoint.dials, dials_append_dial]
        have := hj (j + 1) (by omega)
        rw [← this]; congr 1; omega)
      (by
        simp only [Endpoint.dials, dials_append_dial]
        rw [← hk]; congr 1; omega)
      (by push_cast at hlt ⊢; omega)]
    simp [List.replicate_succ]
    ring

/-- Dials that fail until the retry budget is used up. -/
theorem Connect_all_fail (net : Net) (n : Nat) : ∀ e : Endpoint,
    e.retryCounter + (n : Int) = e.MaxRetries →
    (∀ j, j < n → net.dial (e.dials + j) = false) →
    Connect net e = Outcome.exited 127
      { e with State := CONNECTING, retryCounter := e.MaxRetries,
               conn := if n = 0 then e.conn else Conn.nil,
               log := e.log ++ List.replicate n (NetOp.dial false) } := by
  induction n with
  | zero =>
    rintro ⟨M, T, rc, bs, c, st, lg⟩ hM _
    simp only [Nat.cast_zero, add_zero] at hM
    rw [Connect]
    simp [hM]
  | succ n ih =>
    rintro ⟨M, T, rc, bs, c, st, lg⟩ hM hj
    simp only [Endpoint.dials] at hj hM
    have h0 : net.dial (List.countP NetOp.isDial lg) = false := by simpa using hj 0 (Nat.succ_pos n)
    have h1 : rc < M := by push_cast at hM; omega
    rw [Connect]
    simp only [Endpoint.dials, h0, ge_iff_le, not_le.mpr h1, if_false, Bool.not_false, if_true,
      Bool.false_eq_true]
    rw [ih ⟨M, T, rc + 1, bs, Conn.nil, CONNECTING, lg ++ [NetOp.dial false]⟩
      (by push_cast at hM ⊢; omega)
      (by
        intro j hjn
        simp only [Endpoint.dials, dials_append_dial]
        have := hj (j + 1) (by omega)
        rw [← this]; congr 1; omega)]
    simp [List.replicate_succ]

/-- What `Connect` leaves behind: it returns or exits with status 127, never
lowers the retry counter, keeps `MaxRetries`, and returns only below the
budget. -/
theorem Connect_post (net : Net) (m : Nat) : ∀ e : Endpoint,
    (e.MaxRetries - e.retryCounter).toNat = m →
    (∃ e1, Connect net e = Outcome.returned e1 ∧ e1.MaxRetries = e.MaxRetries ∧
        e.retryCounter ≤ e1.retryCounter ∧ e1.retryCounter < e1.MaxRetries ∧
        e1.conn = Conn.opened ∧ e1.State = CONNECTED) ∨
    (∃ e1, Connect net e = Outcome.exited 127 e1) := by
  induction m with
  | zero =>
    rintro ⟨M, T, rc, bs, c, st, lg⟩ hm
    simp only at hm
    right
    rw [Connect]
    have : rc ≥ M := by omega
    simp [this]
  | succ m ih =>
    rintro ⟨M, T, rc, bs, c, st, lg⟩ hm
    simp only at hm
    have h1 : rc < M := by omega
    rw [Connect]
    simp only [ge_iff_le, not_le.mpr h1, if_false]
    cases hd : net.dial (Endpoint.dials ⟨M, T, rc, bs, c, CONNECTING, lg⟩) with
    | true =>
      left
      simp [h1]
    | false =>
      simp only [Bool.not_false, if_true, Bool.false_eq_true, if_false]
      rcases ih ⟨M, T, rc + 1, bs, Conn.nil, CONNECTING, lg ++ [NetOp.dial false]⟩
        (by simp only; omega) with ⟨e1, he, hM, hr, hlt, hc, hs⟩ | ⟨e1, he⟩
      · left
        rw [he]
        simp only at hM hr
        exact ⟨_, rfl, hM, by simp only; omega, hlt, hc, rfl⟩
      · right
        rw [he]
        exact ⟨_, rfl⟩

/-- Once the first write has failed, `SendBytes` can only end in `os.Exit(127)`. -/
theorem SendBytes_retry_exits (net : Net) (n : Nat) : ∀ e : Endpoint,
    (e.MaxRetries - e.retryCounter).toNat < n →
    ∃ e1, SendBytes.retry n net e = Outcome.exited 127 e1 := by
  induction n with
  | zero => intro e h; omega
  | succ n ih =>
    intro e h
    rw [SendBytes.retry]
    rcases Connect_post net _ e rfl with ⟨e1, he, hM, hr, hlt, _, _⟩ | ⟨e1, he⟩
    · rw [he]
      simp only
      apply ih
      simp only
      omega
    · rw [he]
      exact ⟨_, rfl⟩

/-! ### Lemmas on `Expedite` -/

theorem wire_append (l1 l2 : List NetOp) : wire (l1 ++ l2) = wire l1 ++ wire l2 := by
  induction l1 with
  | nil => rfl
  | cons op l ih =>
    cases op with
    | dial ok => simpa [wire] using ih
    | close => simpa [wire] using ih
    | write s d ok => cases ok <;> simp [wire, ih]

theorem bytesFrom_append (p : Site → Bool) (l1 l2 : List NetOp) :
    bytesFrom p (l1 ++ l2) = bytesFrom p l1 + bytesFrom p l2 := by
  induction l1 with
  | nil => simp [bytesFrom]
  | cons op l ih =>
    cases op with
    | dial ok => simpa [bytesFrom] using ih
    | close => simpa [bytesFrom] using ih
    | write s d ok => cases ok <;> simp [bytesFrom, ih, Nat.add_assoc]

theorem bytesFrom_all (l : List NetOp) : bytesFrom (fun _ => true) l = (wire l).length := by
  induction l with
  | nil => rfl
  | cons op l ih =>
    cases op with
    | dial ok => simpa [bytesFrom, wire] using ih
    | close => simpa [bytesFrom, wire] using ih
    | write s d ok => cases ok <;> simp [bytesFrom, wire, ih]

theorem bytesFrom_split (l : List NetOp) :
    bytesFrom Site.isThreshold l + bytesFrom Site.notThreshold l = (wire l).length := by
  induction l with
  | nil => rfl
  | cons op l ih =>
    cases op with
    | dial ok => simpa [bytesFrom, wire] using ih
    | close => simpa [bytesFrom, wire] using ih
    | write s d ok =>
      cases ok
      · simpa [bytesFrom, wire] using ih
      · cases s <;> simp [bytesFrom, wire, Site.isThreshold, Site.notThreshold] <;> omega

/-- A write from a site other than the threshold flush, of a non-empty buffer,
is counted among the bytes written but not among the threshold bytes. -/
theorem bytesFrom_other_pos (l : List NetOp) (s : Site) (d : Bytes) (hs : s ≠ Site.threshold)
    (hd : d ≠ []) (hm : NetOp.write s d true ∈ l) :
    0 < bytesFrom Site.notThreshold l := by
  induction l with
  | nil => simp at hm
  | cons op l ih =>
    rcases List.mem_cons.mp hm with h | h
    · subst h
      have : 0 < d.length := List.length_pos.mpr hd
      cases s <;> simp [bytesFrom, Site.notThreshold] at hs ⊢ <;> omega
    · have := ih h
      cases op with
      | dial ok => simpa [bytesFrom] using this
      | close => simpa [bytesFrom] using this
      | write s1 d1 ok => cases ok <;> simp [bytesFrom] <;> omega

/-- On an open connection whose writes succeed, `SendBytes` makes one write and returns. -/
theorem SendBytes_ok (net : Net) (hw : ∀ n, net.write n = true) (site : Site) (e : Endpoint)
    (b : Bytes) (hc : e.conn = Conn.opened) :
    SendBytes net site e b = Outcome.returned { e with log := e.log ++ [NetOp.write site b true] } := by
  simp [SendBytes, connWrite, hc, hw]

theorem step_flushed (net : Net) (hw : ∀ n, net.write n = true) (e : Endpoint) (buffer : Bytes)
    (ev : Event) (hc : e.conn = Conn.opened) (hT : 0 ≤ e.SendBufferSizeBytes)
    (hev : ev ≠ Event.stop) :
    ∃ e1 b1 ops, Expedite.step net e buffer ev = Run.waiting e1 b1 ∧
      Flushed e buffer [ev] e1 b1 ops := by
  have hT2 : ¬ e.SendBufferSizeBytes < 0 := not_lt.mpr hT
  cases ev with
  | stop => exact absurd rfl hev
  | tick =>
    refine ⟨{ e with log := e.log ++ [NetOp.write Site.tick buffer true] }, [],
      [NetOp.write Site.tick buffer true], ?_, ?_⟩
    · simp [Expedite.step, SendBytes_ok net hw _ e buffer hc, freshBuffer, makeBuffer, hT2]
    · constructor <;> simp [bytesFrom, Site.isThreshold, wire, items]
  | item s =>
    by_cases hlen : ((buffer ++ line s).length : Int) ≥ e.SendBufferSizeBytes
    · refine ⟨{ e with log := e.log ++ [NetOp.write Site.threshold (buffer ++ line s) true],
                       BytesSent := e.BytesSent + ((buffer ++ line s).length : Int) }, [],
        [NetOp.write Site.threshold (buffer ++ line s) true], ?_, ?_⟩
      · simp only [Expedite.step, hlen, if_true,
          SendBytes_ok net hw _ e (buffer ++ line s) hc, freshBuffer, makeBuffer, hT2, if_false]
      · constructor <;> simp [bytesFrom, Site.isThreshold, wire, items]
    · refine ⟨e, buffer ++ line s, [], ?_, ?_⟩
      · simp only [Expedite.step, hlen, if_false]
      · constructor <;> simp [bytesFrom, wire, items]

theorem step_stop (net : Net) (hw : ∀ n, net.write n = true) (e : Endpoint) (buffer : Bytes)
    (hc : e.conn = Conn.opened) :
    Expedite.step net e buffer Event.stop = Run.done (Outcome.returned
      { e with log := e.log ++ [NetOp.write Site.stop buffer true, NetOp.close],
               conn := Conn.closed, State := STOPPED }) := by
  simp [Expedite.step, SendBytes_ok net hw _ e buffer hc, connClose, hc]

theorem loop_flushed (net : Net) (hw : ∀ n, net.write n = true) (evs : List Event) :
    ∀ (e : Endpoint) (buffer : Bytes), e.conn = Conn.opened → 0 ≤ e.SendBufferSizeBytes →
      Event.stop ∉ evs →
      ∃ e1 b1 ops, Expedite.loop net e buffer evs = Run.waiting e1 b1 ∧
        Flushed e buffer evs e1 b1 ops := by
  induction evs with
  | nil =>
    intro e buffer _ _ _
    exact ⟨e, buffer, [], rfl, by constructor <;> simp [bytesFrom, wire, items]⟩
  | cons ev evs ih =>
    intro e buffer hc hT hs
    have hev : ev ≠ Event.stop := fun h => hs (by simp [h])
    have hs2 : Event.stop ∉ evs := fun h => hs (List.mem_cons_of_mem _ h)
    obtain ⟨e1, b1, ops1, h1, f1⟩ := step_flushed net hw e buffer ev hc hT hev
    obtain ⟨e2, b2, ops2, h2, f2⟩ := ih e1 b1 (f1.conn_eq.trans hc) (f1.cap_eq ▸ hT) hs2
    refine ⟨e2, b2, ops1 ++ ops2, ?_, ?_⟩
    · simp only [Expedite.loop, h1, h2]
    · constructor
      · rw [f2.log_eq, f1.log_eq, List.append_assoc]
      · rw [f2.cap_eq, f1.cap_eq]
      · rw [f2.conn_eq, f1.conn_eq]
      · rw [f2.sent_eq, f1.sent_eq, bytesFrom_append]; push_cast; ring
      · intro op hop
        rcases List.mem_append.mp hop with h | h
        · exact f1.writes op h
        · exact f2.writes op h
      · have e1' := f1.bytes_eq
        have e2' := f2.bytes_eq
        have hi : items (ev :: evs) = items [ev] ++ items evs := by
          cases ev <;> simp [items]
        rw [wire_append, List.append_assoc, e2', ← List.append_assoc, e1', hi]
        simp

theorem loop_append (net : Net) (pre rest : List Event) : ∀ (e : Endpoint) (buffer : Bytes)
    (e1 : Endpoint) (b1 : Bytes), Expedite.loop net e buffer pre = Run.waiting e1 b1 →
    Expedite.loop net e buffer (pre ++ rest) = Expedite.loop net e1 b1 rest := by
  induction pre with
  | nil =>
    intro e buffer e1 b1 h
    simp only [Expedite.loop, Run.waiting.injEq] at h
    obtain ⟨rfl, rfl⟩ := h
    rfl
  | cons ev pre ih =>
    intro e buffer e1 b1 h
    simp only [List.cons_append, Expedite.loop] at h ⊢
    cases hst : Expedite.step net e buffer ev with
    | waiting e2 b2 =>
      rw [hst] at h
      simp only at h ⊢
      exact ih e2 b2 e1 b1 h
    | done o =>
      rw [hst] at h
      simp at h

theorem split_first_stop (evs : List Event) (h : Event.stop ∈ evs) :
    ∃ pre rest, evs = pre ++ Event.stop :: rest ∧ Event.stop ∉ pre := by
  induction evs with
  | nil => simp at h
  | cons ev evs ih =>
    by_cases hev : ev = Event.stop
    · exact ⟨[], evs, by simp [hev], by simp⟩
    · have : Event.stop ∈ evs := by
        rcases List.mem_cons.mp h with h | h
        · exact absurd h.symm hev
        · exact h
      obtain ⟨pre, rest, he, hp⟩ := ih this
      exact ⟨ev :: pre, rest, by simp [he], by
        intro hm
        rcases List.mem_cons.mp hm with h | h
        · exact hev h.symm
        · exact hp h⟩

/-- C4: `Connect` called with `retryCounter = 0` and a maximum `M ≥ 0`. When the
first `k` dials fail, the next one succeeds and `k < M`, `Connect` returns
after exactly `k + 1` dials with `State = CONNECTED` and `retryCounter = k`.
When the first `M` dials all fail, `Connect` makes exactly `M` dials and the
process exits with status 127. -/
theorem C4_Connect_retry_budget (net : Net) (e : Endpoint) (k : Nat)
    (hM : 0 ≤ e.MaxRetries) (h0 : e.retryCounter = 0) :
    ((∀ j, j < k → net.dial (e.dials + j) = false) → net.dial (e.dials + k) = true →
      (k : Int) < e.MaxRetries →
      ∃ e1, Connect net e = Outcome.returned e1 ∧ e1.State = CONNECTED ∧
        e1.retryCounter = (k : Int) ∧ e1.dials = e.dials + (k + 1) ∧
        e1.log = e.log ++ List.replicate k (NetOp.dial false) ++ [NetOp.dial true]) ∧
    ((∀ j, j < e.MaxRetries.toNat → net.dial (e.dials + j) = false) →
      ∃ e1, Connect net e = Outcome.exited 127 e1 ∧
        e1.dials = e.dials + e.MaxRetries.toNat ∧
        e1.log = e.log ++ List.replicate e.MaxRetries.toNat (NetOp.dial false)) := by
  constructor
  · intro hj hk hlt
    refine ⟨_, Connect_fail_then_ok net k e hj hk (by rw [h0]; simpa using hlt), rfl, ?_, ?_, rfl⟩
    · simp [h0]
    · simp [Endpoint.dials, List.countP_append, NetOp.isDial, List.countP_replicate]
  · intro hj
    refine ⟨_, Connect_all_fail net e.MaxRetries.toNat e ?_ hj, ?_, rfl⟩
    · rw [h0, Int.toNat_of_nonneg hM]; simp
    · simp [Endpoint.dials, List.countP_append, NetOp.isDial, List.countP_replicate]

/-- C4 at `MaxRetries = 3` with two failing dials and then a successful one:
three dials, `CONNECTED`, `retryCounter = 2`. -/
theorem C4_Connect_retry_budget_witness :
    ∃ e1, Connect ⟨fun n => decide (2 ≤ n), fun _ => true⟩ NewEndpoint = Outcome.returned e1 ∧
      e1.State = CONNECTED ∧ e1.retryCounter = 2 ∧ e1.dials = 3 ∧
      e1.log = [NetOp.dial false, NetOp.dial false, NetOp.dial true] :=
  (C4_Connect_retry_budget ⟨fun n => decide (2 ≤ n), fun _ => true⟩ NewEndpoint 2
    (by decide) (by decide)).1 (by decide) (by decide) (by decide)

/-- C3: an endpoint with the default budget of 3 retries and an open connection,
on a network where only the first write fails and every dial succeeds.
`SendBytes` writes the buffer once, reconnects three times without writing
again, and the fourth `Connect` ends the process with status 127. -/
theorem C3_SendBytes_never_rewrites :
    SendBytes ⟨fun _ => true, fun n => decide (n ≠ 0)⟩ Site.direct
        { NewEndpoint with conn := Conn.opened, State := CONNECTED } [104, 105] =
      Outcome.exited 127
        { NewEndpoint with
            conn := Conn.opened, State := CONNECTING, retryCounter := 3,
            log := [NetOp.write Site.direct [104, 105] false, NetOp.dial true, NetOp.dial true,
                    NetOp.dial true] } := by
  simp [SendBytes, connWrite, NewEndpoint, Endpoint.writes, MaxRetries, SendBufferSizeBytes,
    SendBytes.retry, Connect, Endpoint.dials, NetOp.isDial, NetOp.isWrite, STOPPED, CONNECTED,
    CONNECTING]

/-- C7: events without a stop, then a stop, on a connected sink whose writes
all succeed. `Expedite` returns with the connection closed and
`State = STOPPED`; what it added to the log is a run of successful writes, the
last of them the flush of the stop branch, followed by the close; the bytes
written, in write order, are the items received, each followed by a newline,
in arrival order. -/
theorem C7_Expedite_writes_every_item (net : Net) (hw : ∀ n, net.write n = true) (e : Endpoint)
    (pre rest : List Event) (hc : e.conn = Conn.opened) (hT : 0 ≤ e.SendBufferSizeBytes)
    (hpre : Event.stop ∉ pre) :
    ∃ e1 ops last,
      Expedite net e (pre ++ Event.stop :: rest) = Run.done (Outcome.returned e1) ∧
      e1.State = STOPPED ∧ e1.conn = Conn.closed ∧
      e1.log = e.log ++ ops ++ [NetOp.write Site.stop last true, NetOp.close] ∧
      (∀ op, op ∈ ops → ∃ s d, op = NetOp.write s d true) ∧
      wire (ops ++ [NetOp.write Site.stop last true]) = ((items pre).map line).flatten := by
  obtain ⟨e1, b1, ops, h1, f1⟩ := loop_flushed net hw pre e [] hc hT hpre
  refine ⟨{ e1 with log := e1.log ++ [NetOp.write Site.stop b1 true, NetOp.close],
                     conn := Conn.closed, State := STOPPED }, ops, b1, ?_, rfl, rfl, ?_,
    f1.writes, ?_⟩
  · have hT2 : ¬ e.SendBufferSizeBytes < 0 := not_lt.mpr hT
    simp only [Expedite, makeBuffer, hT2, if_false]
    rw [loop_append net pre _ e [] e1 b1 h1]
    simp only [Expedite.loop, step_stop net hw e1 b1 (f1.conn_eq.trans hc)]
  · simp [f1.log_eq]
  · rw [wire_append]
    simpa [wire] using f1.bytes_eq

/-- C7 on a threshold of 10 bytes: two items, a tick, a third item and the stop. -/
theorem C7_Expedite_writes_every_item_witness :
    ∃ e1 ops last,
      Expedite ⟨fun _ => true, fun _ => true⟩
          { NewEndpoint with SendBufferSizeBytes := 10, conn := Conn.opened, State := CONNECTED }
          ([Event.item [104, 101, 108, 108, 111], Event.item [119, 111, 114, 108, 100],
            Event.tick, Event.item [33]] ++ Event.stop :: []) = Run.done (Outcome.returned e1) ∧
      e1.State = STOPPED ∧ e1.conn = Conn.closed ∧
      e1.log = ([] : List NetOp) ++ ops ++ [NetOp.write Site.stop last true, NetOp.close] ∧
      (∀ op, op ∈ ops → ∃ s d, op = NetOp.write s d true) ∧
      wire (ops ++ [NetOp.write Site.stop last true]) =
        [104, 101, 108, 108, 111, 10, 119, 111, 114, 108, 100, 10, 33, 10] :=
  C7_Expedite_writes_every_item ⟨fun _ => true, fun _ => true⟩ (fun _ => rfl)
    { NewEndpoint with SendBufferSizeBytes := 10, conn := Conn.opened, State := CONNECTED }
    [Event.item [104, 101, 108, 108, 111], Event.item [119, 111, 114, 108, 100],
      Event.tick, Event.item [33]] [] rfl (by decide) (by decide)

/-- C8: the item branch of `Expedite` on a connected sink with threshold
`T = e.SendBufferSizeBytes` (`0 ≤ T`: `Expedite` allocates its buffer with
capacity `T` before its loop). The item and a newline are appended to the
buffer. Below the threshold nothing is written and the loop goes on with the
extended buffer. At or above it the whole buffer is passed to one write; when
that write succeeds `BytesSent` grows by the length of the buffer and the loop
goes on with an empty buffer, and when it fails the turn ends in `os.Exit(127)`. -/
theorem C8_item_branch_flushes_at_threshold (net : Net) (e : Endpoint) (buffer r : Bytes)
    (hc : e.conn = Conn.opened) (hT : 0 ≤ e.SendBufferSizeBytes) :
    (((buffer ++ r ++ [10]).length : Int) < e.SendBufferSizeBytes →
      Expedite.step net e buffer (Event.item r) = Run.waiting e (buffer ++ r ++ [10])) ∧
    (e.SendBufferSizeBytes ≤ ((buffer ++ r ++ [10]).length : Int) → net.write e.writes = true →
      Expedite.step net e buffer (Event.item r) = Run.waiting
        { e with log := e.log ++ [NetOp.write Site.threshold (buffer ++ r ++ [10]) true],
                 BytesSent := e.BytesSent + ((buffer ++ r ++ [10]).length : Int) } []) ∧
    (e.SendBufferSizeBytes ≤ ((buffer ++ r ++ [10]).length : Int) → net.write e.writes = false →
      ∃ e1, Expedite.step net e buffer (Event.item r) = Run.done (Outcome.exited 127 e1)) := by
  have hT2 : ¬ e.SendBufferSizeBytes < 0 := not_lt.mpr hT
  have hb : buffer ++ line r = buffer ++ r ++ [10] := by simp [line]
  refine ⟨?_, ?_, ?_⟩
  · intro hlt
    have : ¬ (((buffer ++ r ++ [10]).length : Int) ≥ e.SendBufferSizeBytes) := not_le.mpr hlt
    simp only [Expedite.step, hb, this, if_false]
  · intro hge hok
    have : ((buffer ++ r ++ [10]).length : Int) ≥ e.SendBufferSizeBytes := hge
    simp only [Expedite.step, hb, this, if_true, SendBytes, connWrite, hc, hok, freshBuffer,
      makeBuffer, hT2, if_false]
  · intro hge hbad
    have : ((buffer ++ r ++ [10]).length : Int) ≥ e.SendBufferSizeBytes := hge
    simp only [Expedite.step, hb, this, if_true, SendBytes, connWrite, hc, hbad]
    obtain ⟨e1, he⟩ := SendBytes_retry_exits net
      ((e.MaxRetries - e.retryCounter).toNat + 1)
      { e with conn := Conn.opened,
               log := e.log ++ [NetOp.write Site.threshold (buffer ++ r ++ [10]) false] }
      (Nat.lt_succ_self _)
    exact ⟨e1, by rw [he]⟩

/-- C8 with `T = 10` and two items of 5 bytes, each adding 6 bytes to the
buffer: nothing is written after the first, and the second is followed by one
write of all 12 bytes. -/
theorem C8_item_branch_flushes_at_threshold_witness :
    Expedite.step ⟨fun _ => true, fun _ => true⟩
        { NewEndpoint with SendBufferSizeBytes := 10, conn := Conn.opened, State := CONNECTED }
        [] (Event.item [104, 101, 108, 108, 111]) =
      Run.waiting
        { NewEndpoint with SendBufferSizeBytes := 10, conn := Conn.opened, State := CONNECTED }
        [104, 101, 108, 108, 111, 10] ∧
    Expedite.step ⟨fun _ => true, fun _ => true⟩
        { NewEndpoint with SendBufferSizeBytes := 10, conn := Conn.opened, State := CONNECTED }
        [104, 101, 108, 108, 111, 10] (Event.item [119, 111, 114, 108, 100]) =
      Run.waiting
        { NewEndpoint with
            SendBufferSizeBytes := 10, conn := Conn.opened, State := CONNECTED,
            log := [NetOp.write Site.threshold
                      [104, 101, 108, 108, 111, 10, 119, 111, 114, 108, 100, 10] true],
            BytesSent := 12 } [] :=
  ⟨(C8_item_branch_flushes_at_threshold ⟨fun _ => true, fun _ => true⟩
      { NewEndpoint with SendBufferSizeBytes := 10, conn := Conn.opened, State := CONNECTED }
      [] [104, 101, 108, 108, 111] rfl (by decide)).1 (by decide),
   (C8_item_branch_flushes_at_threshold ⟨fun _ => true, fun _ => true⟩
      { NewEndpoint with SendBufferSizeBytes := 10, conn := Conn.opened, State := CONNECTED }
      [104, 101, 108, 108, 111, 10] [119, 111, 114, 108, 100] rfl (by decide)).2.1
      (by decide) rfl⟩

/-- C10: any events on a connected sink whose writes all succeed. `Expedite`
is either blocked in its `select` or has returned; `BytesSent` has grown by
the bytes of the writes made by the size-threshold branch and by nothing
else, so by at most the bytes written, and by less as soon as the timer or
the stop branch wrote a non-empty buffer. -/
theorem C10_BytesSent_counts_threshold_flushes_only (net : Net) (hw : ∀ n, net.write n = true)
    (e : Endpoint) (events : List Event) (hc : e.conn = Conn.opened)
    (hT : 0 ≤ e.SendBufferSizeBytes) :
    ∃ e1 ops,
      (Expedite net e events = Run.done (Outcome.returned e1) ∨
        ∃ b, Expedite net e events = Run.waiting e1 b) ∧
      e1.log = e.log ++ ops ∧
      e1.BytesSent = e.BytesSent + (bytesFrom Site.isThreshold ops : Nat) ∧
      bytesFrom Site.isThreshold ops + bytesFrom Site.notThreshold ops = (wire ops).length ∧
      e1.BytesSent - e.BytesSent ≤ ((wire ops).length : Nat) ∧
      (∀ s d, s ≠ Site.threshold → d ≠ [] → NetOp.write s d true ∈ ops →
        e1.BytesSent - e.BytesSent < ((wire ops).length : Nat)) := by
  have hT2 : ¬ e.SendBufferSizeBytes < 0 := not_lt.mpr hT
  have key : ∃ e1 ops,
      (Expedite net e events = Run.done (Outcome.returned e1) ∨
        ∃ b, Expedite net e events = Run.waiting e1 b) ∧
      e1.log = e.log ++ ops ∧
      e1.BytesSent = e.BytesSent + (bytesFrom Site.isThreshold ops : Nat) := by
    by_cases hs : Event.stop ∈ events
    · obtain ⟨pre, rest, rfl, hpre⟩ := split_first_stop events hs
      obtain ⟨e1, b1, ops, h1, f1⟩ := loop_flushed net hw pre e [] hc hT hpre
      refine ⟨{ e1 with log := e1.log ++ [NetOp.write Site.stop b1 true, NetOp.close],
                         conn := Conn.closed, State := STOPPED },
        ops ++ [NetOp.write Site.stop b1 true, NetOp.close], Or.inl ?_, ?_, ?_⟩
      · simp only [Expedite, makeBuffer, hT2, if_false]
        rw [loop_append net pre _ e [] e1 b1 h1]
        simp only [Expedite.loop, step_stop net hw e1 b1 (f1.conn_eq.trans hc)]
      · simp [f1.log_eq]
      · simp [f1.sent_eq, bytesFrom_append, bytesFrom, Site.isThreshold]
    · obtain ⟨e1, b1, ops, h1, f1⟩ := loop_flushed net hw events e [] hc hT hs
      exact ⟨e1, ops, Or.inr ⟨b1, by simp only [Expedite, makeBuffer, hT2, if_false, h1]⟩,
        f1.log_eq, f1.sent_eq⟩
  obtain ⟨e1, ops, hrun, hlog, hsent⟩ := key
  have hsplit := bytesFrom_split ops
  refine ⟨e1, ops, hrun, hlog, hsent, hsplit, ?_, ?_⟩
  · rw [hsent]; omega
  · intro s d hs hd hm
    have := bytesFrom_other_pos ops s d hs hd hm
    rw [hsent]; omega

/-- C10 on a threshold of 10 bytes: two items (one threshold flush of 12
bytes), a third item flushed by the timer, and the stop. -/
theorem C10_BytesSent_counts_threshold_flushes_only_witness :
    ∃ e1 ops,
      (Expedite ⟨fun _ => true, fun _ => true⟩
          { NewEndpoint with SendBufferSizeBytes := 10, conn := Conn.opened, State := CONNECTED }
          [Event.item [104, 101, 108, 108, 111], Event.item [119, 111, 114, 108, 100],
            Event.item [33], Event.tick, Event.stop] = Run.done (Outcome.returned e1) ∨
        ∃ b, Expedite ⟨fun _ => true, fun _ => true⟩
          { NewEndpoint with SendBufferSizeBytes := 10, conn := Conn.opened, State := CONNECTED }
          [Event.item [104, 101, 108, 108, 111], Event.item [119, 111, 114, 108, 100],
            Event.item [33], Event.tick, Event.stop] = Run.waiting e1 b) ∧
      e1.log = ([] : List NetOp) ++ ops ∧
      e1.BytesSent = 0 + (bytesFrom Site.isThreshold ops : Nat) ∧
      bytesFrom Site.isThreshold ops + bytesFrom Site.notThreshold ops = (wire ops).length ∧
      e1.BytesSent - 0 ≤ ((wire ops).length : Nat) ∧
      (∀ s d, s ≠ Site.threshold → d ≠ [] → NetOp.write s d true ∈ ops →
        e1.BytesSent - 0 < ((wire ops).length : Nat)) :=
  C10_BytesSent_counts_threshold_flushes_only ⟨fun _ => true, fun _ => true⟩ (fun _ => rfl)
    { NewEndpoint with SendBufferSizeBytes := 10, conn := Conn.opened, State := CONNECTED }
    [Event.item [104, 101, 108, 108, 111], Event.item [119, 111, 114, 108, 100],
      Event.item [33], Event.tick, Event.stop] rfl (by decide)

end sender

namespace metrics

/-! ## The catalog is not typed by index -/

/-- C1 (code bug): with `num_metrics = 10`, `int_ratio = 25`, `float_ratio = 25` and
`metric_per_metricname_ratio = 50` the limits are `limitInt = 2` and `limitFloat = 5`
and the run size is 5, and in every environment `NewMetricFactory` builds five
`MetricInt` (indices 0 to 4) followed by five `MetricBool`: the indices 2, 3 and 4,
which the limits place in the float range, hold integer metrics, and no metric
is a `MetricFloat`. -/
theorem C1_run_crosses_type_boundary (env : Env) (gas : Nat) :
    limitInt halfRunConfig = 2 ∧ limitFloat halfRunConfig = 5 ∧
    numPerMetricName halfRunConfig = 5 ∧
    ∃ ml cur, buildCatalog env gas 3 halfRunConfig Cursor.zero = Except.ok (ml, cur) ∧
      ml.map (Option.map Metric.kind) =
        [some Kind.int, some Kind.int, some Kind.int, some Kind.int, some Kind.int,
         some Kind.bool, some Kind.bool, some Kind.bool, some Kind.bool, some Kind.bool] := by
  refine ⟨by decide, by decide, by decide, ?_⟩
  cases gas <;> exact ⟨_, _, rfl, rfl⟩

/-! ## The producer -/

theorem Change_ok (env : Env) (cur : Cursor) (m : Metric) :
    ∃ m1 cur1, m.Change env cur = Except.ok (m1, cur1) ∧ m1.series = m.series := by
  cases m <;> simp [Metric.Change, Intn, Metric.series, Metric.kind, Metric.name, Metric.tags]

theorem wrap64_eq (x : Int) (h1 : -9223372036854775808 ≤ x) (h2 : x < 9223372036854775808) :
    wrap64 x = x := by
  unfold wrap64
  omega

theorem rangeMetrics_ok (env : Env) : ∀ (ms : List Metric) (mf : MetricFactory) (cur : Cursor),
    -9223372036854775808 ≤ mf.Counter →
    mf.Counter + (ms.length : Int) < 9223372036854775808 →
    ∃ (ms1 : List Metric) (cur1 : Cursor), rangeMetrics env (ms.map some) mf cur =
        Except.ok (ms1.map some,
          { mf with Output := mf.Output ++ ms.map (fun m => ⟨m, mf.timestamp⟩),
                    Counter := mf.Counter + (ms.length : Int) }, cur1) ∧
      ms1.map Metric.series = ms.map Metric.series
  | [], mf, cur, _, _ => ⟨[], cur, by simp [rangeMetrics], rfl⟩
  | m :: ms, mf, cur, hlo, hhi => by
      simp only [List.length_cons, Nat.cast_add, Nat.cast_one] at hhi
      have hw : wrap64 (mf.Counter + 1) = mf.Counter + 1 :=
        wrap64_eq _ (by omega) (by omega)
      obtain ⟨m1, cur1, hch, hser⟩ := Change_ok env cur m
      obtain ⟨ms1, cur2, hr, hs⟩ := rangeMetrics_ok env ms
        { mf with Output := mf.Output ++ [⟨m, mf.timestamp⟩], Counter := mf.Counter + 1 } cur1
        (by show -9223372036854775808 ≤ mf.Counter + 1; omega)
        (by show mf.Counter + 1 + (ms.length : Int) < 9223372036854775808; omega)
      refine ⟨m1 :: ms1, cur2, ?_, by simp [hser, hs]⟩
      simp only [List.map_cons, rangeMetrics, hch, hw, hr, List.length_cons]
      simp only [List.append_assoc, List.singleton_append, Nat.cast_add, Nat.cast_one]
      have hcnt : mf.Counter + 1 + (ms.length : Int) = mf.Counter + ((ms.length : Int) + 1) := by
        ring
      rw [hcnt]

theorem round_ok (env : Env) (ms : List Metric) (mf : MetricFactory) (cur : Cursor)
    (h : mf.metricList = ms.map some) (hlo : -9223372036854775808 ≤ mf.Counter)
    (hhi : mf.Counter + (ms.length : Int) < 9223372036854775808) :
    ∃ (ms1 : List Metric) (cur1 : Cursor), round env mf cur =
        Except.ok ({ mf with metricList := ms1.map some,
                             Output := mf.Output ++ ms.map (fun m => ⟨m, mf.timestamp⟩),
                             Counter := mf.Counter + (ms.length : Int) }, cur1) ∧
      ms1.map Metric.series = ms.map Metric.series := by
  obtain ⟨ms1, cur1, hr, hs⟩ := rangeMetrics_ok env ms mf cur hlo hhi
  exact ⟨ms1, cur1, by simp only [round, h, hr], hs⟩

theorem range_succ_flatMap {β : Type} (n : Nat) (f : Nat → List β) :
    (List.range (n + 1)).flatMap f = f 0 ++ (List.range n).flatMap (fun k => f (k + 1)) := by
  rw [List.range_succ_eq_map, List.flatMap_cons, List.flatMap_map]

theorem Produce_loop_rounds (env : Env) (hstop : ∀ k, env.stop k = false) (s : Int) (hs : 0 ≤ s)
    (ser : List (Kind × Bytes × Bytes)) :
    ∀ (n fuel : Nat) (mf : MetricFactory) (ms : List Metric) (cur : Cursor),
      n + 1 ≤ fuel → mf.continuous = false → mf.metricList = ms.map some →
      ms.map Metric.series = ser →
      (n = 0 ∨ mf.timestamp + (n : Int) * s < mf.endTimestamp) →
      mf.endTimestamp ≤ mf.timestamp + ((n : Int) + 1) * s →
      -9223372036854775808 ≤ mf.timestamp →
      mf.timestamp + ((n : Int) + 1) * s < 9223372036854775808 →
      -9223372036854775808 ≤ mf.Counter →
      mf.Counter + ((n : Int) + 1) * (ser.length : Int) < 9223372036854775808 →
      ∃ (mf1 : MetricFactory) (cur1 : Cursor),
        Produce.loop env s fuel mf cur = Except.ok (mf1, cur1) ∧
        mf1.closed = true ∧
        mf1.Counter = mf.Counter + ((n : Int) + 1) * (ser.length : Int) ∧
        mf1.Output.map Record.key =
          mf.Output.map Record.key ++
            (List.range (n + 1)).flatMap
              (fun k => roundKeys ser (mf.timestamp + (k : Int) * s)) := by
  intro n
  induction n with
  | zero =>
      intro fuel mf ms cur hf hc hml hser _ hend htlo hthi hclo hchi
      obtain ⟨fuel, rfl⟩ : ∃ f, fuel = f + 1 := ⟨fuel - 1, by omega⟩
      have hL : ser.length = ms.length := by rw [← hser, List.length_map]
      obtain ⟨ms1, cur1, hr, _⟩ :=
        round_ok env ms mf { cur with selects := cur.selects + 1 } hml hclo
          (by rw [hL] at hchi; simpa using hchi)
      have hend1 : mf.endTimestamp ≤ mf.timestamp + s := by simpa using hend
      have hw : wrap64 (mf.timestamp + s) = mf.timestamp + s :=
        wrap64_eq _ (by omega) (by simpa using hthi)
      refine ⟨{ mf with metricList := ms1.map some,
                        Output := mf.Output ++ ms.map (fun m => ⟨m, mf.timestamp⟩),
                        Counter := mf.Counter + (ms.length : Int),
                        timestamp := mf.timestamp + s, closed := true }, cur1, ?_, rfl, ?_, ?_⟩
      · simp only [Produce.loop, hstop, hr, hc, hw, ge_iff_le, hend1, if_true,
          Bool.false_eq_true, if_false]
      · subst hser
        simp
      · subst hser
        simp [roundKeys, Record.key, Function.comp_def, List.range_succ]
  | succ n ih =>
      intro fuel mf ms cur hf hc hml hser hlt hend htlo hthi hclo hchi
      obtain ⟨fuel, rfl⟩ : ∃ f, fuel = f + 1 := ⟨fuel - 1, by omega⟩
      have hL : ser.length = ms.length := by rw [← hser, List.length_map]
      have hn : (0 : Int) ≤ (n : Int) * s := mul_nonneg (Int.ofNat_nonneg n) hs
      have hnL : (0 : Int) ≤ ((n : Int) + 1) * (ms.length : Int) :=
        mul_nonneg (by omega) (Int.ofNat_nonneg _)
      have e1 : (((n + 1 : Nat) : Int) + 1) * s = ((n : Int) + 1) * s + s := by
        push_cast
        ring
      have e2 : (((n + 1 : Nat) : Int) + 1) * (ser.length : Int) =
          ((n : Int) + 1) * (ms.length : Int) + (ms.length : Int) := by
        rw [hL]
        push_cast
        ring
      have e3 : ((n : Int) + 1) * s = (n : Int) * s + s := by ring
      rw [e1] at hend hthi
      rw [e2] at hchi
      obtain ⟨ms1, cur1, hr, hs1⟩ :=
        round_ok env ms mf { cur with selects := cur.selects + 1 } hml hclo (by omega)
      have hlt1 : mf.timestamp + ((n : Int) + 1) * s < mf.endTimestamp := by
        rcases hlt with h | h
        · omega
        · push_cast at h
          exact h
      have hnot : ¬ mf.endTimestamp ≤ mf.timestamp + s := by omega
      have hw : wrap64 (mf.timestamp + s) = mf.timestamp + s :=
        wrap64_eq _ (by omega) (by omega)
      obtain ⟨mf1, cur2, hl, hcl, hcnt, hout⟩ := ih fuel
        { mf with metricList := ms1.map some,
                  Output := mf.Output ++ ms.map (fun m => ⟨m, mf.timestamp⟩),
                  Counter := mf.Counter + (ms.length : Int),
                  timestamp := mf.timestamp + s } ms1 cur1 (by omega) hc rfl (hs1.trans hser)
        (Or.inr (by
          show mf.timestamp + s + (n : Int) * s < mf.endTimestamp
          omega))
        (by
          show mf.endTimestamp ≤ mf.timestamp + s + ((n : Int) + 1) * s
          omega)
        (by
          show -9223372036854775808 ≤ mf.timestamp + s
          omega)
        (by
          show mf.timestamp + s + ((n : Int) + 1) * s < 9223372036854775808
          omega)
        (by
          show -9223372036854775808 ≤ mf.Counter + (ms.length : Int)
          omega)
        (by
          show mf.Counter + (ms.length : Int) + ((n : Int) + 1) * (ser.length : Int) <
            9223372036854775808
          rw [hL]
          omega)
      refine ⟨mf1, cur2, ?_, hcl, ?_, ?_⟩
      · simp only [Produce.loop, hstop, hr, hc, hw, ge_iff_le, hnot, if_true, Bool.false_eq_true,
          if_false]
        rw [hc] at hl
        exact hl
      · rw [hcnt]
        subst hser
        simp only [List.length_map]
        push_cast
        ring
      · rw [range_succ_flatMap (n + 1), hout]
        subst hser
        have hk : ∀ k : Nat, mf.timestamp + s + (k : Int) * s =
            mf.timestamp + ((k + 1 : Nat) : Int) * s := by
          intro k
          push_cast
          ring
        simp [roundKeys, Record.key, Function.comp_def, hk]

/-- C5 (counterexample): the factory `NewMetricFactory` builds from a configuration
with `start = end`, `continuous = false` and three metrics, run by `Produce`
with no stop signal, pushes three records (one round) and leaves `Counter` at 3
before it closes the output. -/
theorem C5_start_eq_end_pushes_a_round :
    ∃ mf cur mf1 cur1,
      NewMetricFactory exampleEnv 0 4 sameInstantConfig Cursor.zero = Except.ok (mf, cur) ∧
      mf.timestamp = mf.endTimestamp ∧ mf.continuous = false ∧ mf.Counter = 0 ∧
      Produce exampleEnv 1 mf cur = Except.ok (mf1, cur1) ∧
      mf1.Output.length = 3 ∧ mf1.Counter = 3 ∧ mf1.closed = true :=
  ⟨_, _, _, _, rfl, rfl, rfl, rfl, rfl, rfl, rfl, rfl⟩

/-- C5 (amended): with `start = end`, `continuous = false`, a step that is not
negative, no stop signal pending, and neither `start + step` nor the counter
leaving the range of an `int64`, `Produce` performs exactly one round: it
pushes one record per metric, in catalog order, each stamped `start`, adds the
number of metrics to `Counter`, and closes the output. -/
theorem C5_start_eq_end_one_round (env : Env) (mf : MetricFactory) (ms : List Metric)
    (cur : Cursor) (fuel : Nat) (hstop : env.stop cur.selects = false)
    (hc : mf.continuous = false) (hml : mf.metricList = ms.map some)
    (heq : mf.timestamp = mf.endTimestamp) (hs : 0 ≤ mf.step)
    (htlo : -9223372036854775808 ≤ mf.timestamp)
    (hthi : mf.timestamp + mf.step < 9223372036854775808)
    (hclo : -9223372036854775808 ≤ mf.Counter)
    (hchi : mf.Counter + (ms.length : Int) < 9223372036854775808) :
    ∃ (mf1 : MetricFactory) (cur1 : Cursor),
      Produce env (fuel + 1) mf cur = Except.ok (mf1, cur1) ∧ mf1.closed = true ∧
      mf1.Output = mf.Output ++ ms.map (fun m => ⟨m, mf.timestamp⟩) ∧
      mf1.Counter = mf.Counter + (ms.length : Int) := by
  obtain ⟨ms1, cur1, hr, _⟩ :=
    round_ok env ms mf { cur with selects := cur.selects + 1 } hml hclo hchi
  have hend : mf.endTimestamp ≤ mf.timestamp + mf.step := by omega
  have hw : wrap64 (mf.timestamp + mf.step) = mf.timestamp + mf.step :=
    wrap64_eq _ (by omega) hthi
  refine ⟨{ mf with metricList := ms1.map some,
                    Output := mf.Output ++ ms.map (fun m => ⟨m, mf.timestamp⟩),
                    Counter := mf.Counter + (ms.length : Int),
                    timestamp := mf.timestamp + mf.step, closed := true }, cur1, ?_, rfl, rfl, rfl⟩
  simp only [Produce, Produce.loop, hstop, hr, hc, hw, ge_iff_le, hend, if_true,
    Bool.false_eq_true, if_false]

/-- C5 (amended) on one integer metric with `start = end = 5` and a step of 60. -/
theorem C5_start_eq_end_one_round_witness :
    ∃ (mf1 : MetricFactory) (cur1 : Cursor),
      Produce exampleEnv (0 + 1)
        { metricList := [some (Metric.MetricInt [97] [] 7)], timestamp := 5, step := 60,
          endTimestamp := 5, continuous := false, Counter := 0, Output := [], closed := false }
        Cursor.zero = Except.ok (mf1, cur1) ∧ mf1.closed = true ∧
      mf1.Output = [] ++ [Metric.MetricInt [97] [] 7].map (fun m => ⟨m, 5⟩) ∧
      mf1.Counter = 0 + (([Metric.MetricInt [97] [] 7].length : Nat) : Int) :=
  C5_start_eq_end_one_round exampleEnv
    { metricList := [some (Metric.MetricInt [97] [] 7)], timestamp := 5, step := 60,
      endTimestamp := 5, continuous := false, Counter := 0, Output := [], closed := false }
    [Metric.MetricInt [97] [] 7] Cursor.zero 0 rfl rfl rfl rfl (by decide) (by decide)
    (by decide) (by decide) (by decide)

theorem length_rounds (ser : List (Kind × Bytes × Bytes)) (f : Nat → Int) :
    ∀ K : Nat, ((List.range K).flatMap (fun k => roundKeys ser (f k))).length = K * ser.length
  | 0 => by simp
  | K + 1 => by
      rw [List.range_succ, List.flatMap_append, List.length_append, length_rounds ser f K]
      simp [roundKeys]
      ring

theorem mem_rounds (ser : List (Kind × Bytes × Bytes)) (f : Nat → Int) (K : Nat)
    (x : (Kind × Bytes × Bytes) × Int)
    (hx : x ∈ (List.range K).flatMap (fun k => roundKeys ser (f k))) :
    ∃ k, k < K ∧ x.2 = f k := by
  simp only [List.mem_flatMap, List.mem_range, roundKeys, List.mem_map] at hx
  obtain ⟨k, hk, _, _, rfl⟩ := hx
  exact ⟨k, hk, rfl⟩

/-- The number of rounds: the ceiling of `(end - start) / step`. -/
theorem ceil_rounds (d s : Int) (hd : 0 < d) (hs : 0 < s) :
    1 ≤ (d + s - 1) / s ∧ ((d + s - 1) / s - 1) * s < d ∧ d ≤ (d + s - 1) / s * s := by
  have h1 := Int.ediv_add_emod (d + s - 1) s
  have h2 := Int.emod_nonneg (d + s - 1) (ne_of_gt hs)
  have h3 := Int.emod_lt_of_pos (d + s - 1) hs
  have h4 : ((d + s - 1) / s - 1) * s = s * ((d + s - 1) / s) - s := by ring
  have h5 : (d + s - 1) / s * s = s * ((d + s - 1) / s) := by ring
  refine ⟨?_, by omega, by omega⟩
  rw [Int.le_ediv_iff_mul_le hs]
  omega

/-- C6 (counterexample): three integer metrics, `start < end` two minutes apart,
`continuous = false` and a step of `2^63 - 1` ns, so that the ceiling of
`(end - start) / step` is 1. The sum `start + step` wraps to
`-7519304836854775809`, which is below `end`: `Produce` has not returned after
one, two or three rounds, and a stop signal at the third `select` finds six
records pushed, the last three stamped with the negative value. -/
theorem C6_step_overflow_runs_on :
    (longStepFactory.timestamp < longStepFactory.endTimestamp ∧ 0 < longStepFactory.step ∧
      longStepFactory.continuous = false) ∧
    (longStepFactory.endTimestamp - longStepFactory.timestamp + longStepFactory.step - 1) /
      longStepFactory.step = 1 ∧
    wrap64 (longStepFactory.timestamp + longStepFactory.step) = -7519304836854775809 ∧
    Produce exampleEnv 1 longStepFactory Cursor.zero = Except.error Fault.outOfFuel ∧
    Produce exampleEnv 2 longStepFactory Cursor.zero = Except.error Fault.outOfFuel ∧
    Produce exampleEnv 3 longStepFactory Cursor.zero = Except.error Fault.outOfFuel ∧
    ∃ mf1 cur1, Produce stopThirdEnv 3 longStepFactory Cursor.zero = Except.ok (mf1, cur1) ∧
      mf1.Output.map Record.timestamp =
        [1704067200000000000, 1704067200000000000, 1704067200000000000,
         -7519304836854775809, -7519304836854775809, -7519304836854775809] :=
  ⟨⟨by decide, by decide, rfl⟩, by decide, by decide, rfl, rfl, rfl, _, _, rfl, rfl⟩

/-- C6 (amended): with `start < end`, `step > 0`, `continuous = false`, no stop
signal, a catalog `ms` without empty slot, and `end + step` and the counter
staying in the range of an `int64`, `Produce` returns (with any fuel of at
least `K`) after exactly `K` rounds, `K` being the ceiling of
`(end - start) / step`, and has closed the output. Round `k < K` pushed one
record per metric, in catalog order, each stamped `start + k * step`; every
timestamp pushed is in `[start, end)`; `Counter` and the number of records
grew by `K * C`. -/
theorem C6_Produce_rounds (env : Env) (hstop : ∀ k, env.stop k = false) (mf : MetricFactory)
    (ms : List Metric) (cur : Cursor) (hml : mf.metricList = ms.map some)
    (hc : mf.continuous = false) (hlt : mf.timestamp < mf.endTimestamp) (hs : 0 < mf.step)
    (htlo : -9223372036854775808 ≤ mf.timestamp)
    (hthi : mf.endTimestamp + mf.step < 9223372036854775808)
    (hclo : -9223372036854775808 ≤ mf.Counter)
    (hchi : mf.Counter + (mf.endTimestamp - mf.timestamp + mf.step - 1) / mf.step *
      (ms.length : Int) < 9223372036854775808) :
    ∃ K : Nat,
      (K : Int) = (mf.endTimestamp - mf.timestamp + mf.step - 1) / mf.step ∧
      ((K : Int) - 1) * mf.step < mf.endTimestamp - mf.timestamp ∧
      mf.endTimestamp - mf.timestamp ≤ (K : Int) * mf.step ∧
      ∀ fuel, K ≤ fuel → ∃ (mf1 : MetricFactory) (cur1 : Cursor),
        Produce env fuel mf cur = Except.ok (mf1, cur1) ∧ mf1.closed = true ∧
        mf1.Counter = mf.Counter + (K : Int) * (ms.length : Int) ∧
        mf1.Output.length = mf.Output.length + K * ms.length ∧
        mf1.Output.map Record.key =
          mf.Output.map Record.key ++
            (List.range K).flatMap
              (fun k => roundKeys (ms.map Metric.series) (mf.timestamp + (k : Int) * mf.step)) ∧
        ∀ r ∈ mf1.Output.drop mf.Output.length,
          mf.timestamp ≤ r.timestamp ∧ r.timestamp < mf.endTimestamp := by
  obtain ⟨hq1, hq2, hq3⟩ :=
    ceil_rounds (mf.endTimestamp - mf.timestamp) mf.step (by omega) hs
  generalize hq : (mf.endTimestamp - mf.timestamp + mf.step - 1) / mf.step = q
    at hq1 hq2 hq3 hchi
  obtain ⟨n, hn⟩ : ∃ n : Nat, (n : Int) + 1 = q := ⟨(q - 1).toNat, by omega⟩
  subst hn
  refine ⟨n + 1, by push_cast; rfl, by push_cast; omega, by push_cast; omega, ?_⟩
  intro fuel hfuel
  have hq2a : ((n : Int) + 1 - 1) * mf.step = (n : Int) * mf.step := by ring
  have hq2b : ((n : Int) + 1) * mf.step = (n : Int) * mf.step + mf.step := by ring
  obtain ⟨mf1, cur1, hl, hcl, hcnt, hout⟩ :=
    Produce_loop_rounds env hstop mf.step (le_of_lt hs) (ms.map Metric.series) n fuel mf ms cur
      hfuel hc hml rfl (Or.inr (by omega)) (by omega) htlo (by omega) hclo
      (by rw [List.length_map]; exact hchi)
  have hlen : mf1.Output.length = mf.Output.length + (n + 1) * ms.length := by
    have := congrArg List.length hout
    rw [List.length_append, length_rounds, List.length_map, List.length_map,
      List.length_map] at this
    exact this
  refine ⟨mf1, cur1, hl, hcl, ?_, hlen, hout, ?_⟩
  · rw [hcnt]
    simp
  · intro r hr
    have hmem : r.key ∈ (mf1.Output.map Record.key).drop mf.Output.length := by
      rw [← List.map_drop]
      exact List.mem_map_of_mem _ hr
    rw [hout] at hmem
    have hdrop : ∀ (a b : List ((Kind × Bytes × Bytes) × Int)) (m : Nat), m = a.length →
        (a ++ b).drop m = b := by
      intro a b m hm
      subst hm
      exact List.drop_left a b
    rw [hdrop _ _ _ (by simp)] at hmem
    obtain ⟨k, hk, hts⟩ := mem_rounds _ _ _ _ hmem
    have hts1 : r.timestamp = mf.timestamp + (k : Int) * mf.step := hts
    have hk0 : (0 : Int) ≤ (k : Int) * mf.step := mul_nonneg (Int.ofNat_nonneg k) (le_of_lt hs)
    have hkn : (k : Int) * mf.step ≤ (n : Int) * mf.step :=
      mul_le_mul_of_nonneg_right (by omega) (le_of_lt hs)
    constructor <;> omega

/-- C6 (amended) on three integer metrics, a two-minute interval and a step of
one minute; and the same scenario run from its configuration:
`NewMetricFactory` builds three integer metrics and `Produce` pushes 6 records
in 2 rounds, stamped `start` and `start + 1 min`. -/
theorem C6_Produce_rounds_witness :
    (∃ K : Nat,
      (K : Int) = (threeIntFactory.endTimestamp - threeIntFactory.timestamp +
        threeIntFactory.step - 1) / threeIntFactory.step ∧
      ((K : Int) - 1) * threeIntFactory.step <
        threeIntFactory.endTimestamp - threeIntFactory.timestamp ∧
      threeIntFactory.endTimestamp - threeIntFactory.timestamp ≤ (K : Int) * threeIntFactory.step ∧
      ∀ fuel, K ≤ fuel → ∃ (mf1 : MetricFactory) (cur1 : Cursor),
        Produce exampleEnv fuel threeIntFactory Cursor.zero = Except.ok (mf1, cur1) ∧
        mf1.closed = true ∧
        mf1.Counter = threeIntFactory.Counter + (K : Int) *
          (([Metric.MetricInt (str "int.a") [] 1, Metric.MetricInt (str "int.b") [] 2,
             Metric.MetricInt (str "int.c") [] 3].length : Nat) : Int) ∧
        mf1.Output.length = threeIntFactory.Output.length + K *
          [Metric.MetricInt (str "int.a") [] 1, Metric.MetricInt (str "int.b") [] 2,
            Metric.MetricInt (str "int.c") [] 3].length ∧
        mf1.Output.map Record.key =
          threeIntFactory.Output.map Record.key ++
            (List.range K).flatMap
              (fun k => roundKeys
                ([Metric.MetricInt (str "int.a") [] 1, Metric.MetricInt (str "int.b") [] 2,
                  Metric.MetricInt (str "int.c") [] 3].map Metric.series)
                (threeIntFactory.timestamp + (k : Int) * threeIntFactory.step)) ∧
        ∀ r ∈ mf1.Output.drop threeIntFactory.Output.length,
          threeIntFactory.timestamp ≤ r.timestamp ∧
            r.timestamp < threeIntFactory.endTimestamp) ∧
    (∃ mf cur mf1 cur1,
      NewMetricFactory exampleEnv 0 4 threeIntConfig Cursor.zero = Except.ok (mf, cur) ∧
      mf.metricList.map (Option.map Metric.kind) = [some Kind.int, some Kind.int, some Kind.int] ∧
      Produce exampleEnv 2 mf cur = Except.ok (mf1, cur1) ∧
      mf1.Output.map Record.timestamp =
        [1704067200000000000, 1704067200000000000, 1704067200000000000,
         1704067260000000000, 1704067260000000000, 1704067260000000000] ∧
      mf1.Counter = 6 ∧ mf1.closed = true) :=
  ⟨C6_Produce_rounds exampleEnv (fun _ => rfl) threeIntFactory
      [Metric.MetricInt (str "int.a") [] 1, Metric.MetricInt (str "int.b") [] 2,
        Metric.MetricInt (str "int.c") [] 3] Cursor.zero rfl rfl (by decide) (by decide)
      (by decide) (by decide) (by decide) (by decide),
    ⟨_, _, _, _, rfl, rfl, rfl, rfl, rfl, rfl⟩⟩

end metrics
namespace metrics

/-! ## The catalog loop -/

theorem NewMetric_ok (env : Env) (kind : Kind) (name tags : Bytes) (cur : Cursor) :
    ∃ (m : Metric) (cur1 : Cursor), NewMetric env kind name tags cur = Except.ok (m, cur1) ∧
      m.name = name ∧ m.tags = tags ∧ m.kind = kind := by
  cases kind <;> simp [NewMetric, Intn, Metric.kind, Metric.name, Metric.tags]

theorem set_first_hole (m : Metric) (rest : List (Option Metric)) :
    ∀ pre : List Metric,
      (pre.map some ++ none :: rest).set pre.length (some m) = (pre ++ [m]).map some ++ rest
  | [] => rfl
  | x :: pre => by
      simp only [List.map_cons, List.cons_append, List.length_cons, List.set_cons_succ,
        set_first_hole m rest pre]

theorem fillRun_spec (env : Env) (gas : Nat) (mand opt : TagsFactory) (ot : Int) (kind : Kind)
    (name : Bytes)
    (htag : ∀ cur, ∃ mt cur1, tagString env gas mand opt ot cur = Except.ok (mt, cur1)) :
    ∀ (left k : Nat) (pre : List Metric) (cur : Cursor),
      ((pre.length + k : Nat) : Int) < 9223372036854775808 →
      ∃ (run : List Metric) (cur1 : Cursor),
        fillRun env gas ((pre.length + k : Nat) : Int) mand opt ot kind name left
            (pre.length : Int) (pre.map some ++ List.replicate k none) cur =
          Except.ok (((pre.length + run.length : Nat) : Int),
            (pre ++ run).map some ++ List.replicate (k - run.length) none, cur1) ∧
        run.length = min left k ∧ ∀ m ∈ run, m.name = name ∧ m.kind = kind := by
  intro left
  induction left with
  | zero =>
      intro k pre cur _
      exact ⟨[], cur, by simp [fillRun], by simp, by simp⟩
  | succ left ih =>
      intro k pre cur hN
      cases k with
      | zero => exact ⟨[], cur, by simp [fillRun], by simp, by simp⟩
      | succ k =>
          obtain ⟨mt, cur1, ht⟩ := htag cur
          obtain ⟨m, cur2, hm, hname, _, hkind⟩ := NewMetric_ok env kind name mt cur1
          have e1 : (((pre ++ [m]).length + k : Nat) : Int) = ((pre.length + (k + 1) : Nat) : Int) := by
            simp only [List.length_append, List.length_singleton]
            omega
          obtain ⟨run, cur3, hrun, hlen, hall⟩ := ih k (pre ++ [m]) cur2 (by rw [e1]; exact hN)
          have hi : ((pre.length : Nat) : Int) < ((pre.length + (k + 1) : Nat) : Int) := by
            omega
          have e2 : (((pre ++ [m]).length : Nat) : Int) = (pre.length : Int) + 1 := by
            simp
          have e3 : (pre.map some ++ List.replicate (k + 1) none).set
              ((pre.length : Int)).toNat (some m) =
              (pre ++ [m]).map some ++ List.replicate k (none : Option Metric) := by
            rw [Int.toNat_ofNat, List.replicate_succ, set_first_hole]
          have hw : wrap64 ((pre.length : Int) + 1) = (pre.length : Int) + 1 :=
            wrap64_eq _ (by omega) (by omega)
          rw [e1, e2] at hrun
          refine ⟨m :: run, cur3, ?_, by simp only [List.length_cons, hlen]; omega, ?_⟩
          · rw [fillRun, if_pos hi]
            simp only [ht, hm, hw, e3, hrun]
            simp only [List.length_append, List.length_singleton, List.length_cons,
              List.append_assoc, List.singleton_append, Nat.add_sub_add_right, List.length_nil,
              Nat.zero_add]
            have e4 : pre.length + 1 + run.length = pre.length + (run.length + 1) := by omega
            rw [e4]
          · intro x hx
            rcases List.mem_cons.mp hx with rfl | hx
            · exact ⟨hname, hkind⟩
            · exact hall x hx

theorem catalogLoop_spec (env : Env) (gas : Nat) (c : ConfigSet) (mand opt : TagsFactory)
    (ot li lf : Int) (R : Nat) (hR : 1 ≤ R)
    (hsize : 0 ≤ c.MetricNameSize ∧ c.MetricNameSize ≤ 36)
    (hN : c.NumMetrics < 9223372036854775808)
    (htag : ∀ cur, ∃ mt cur1, tagString env gas mand opt ot cur = Except.ok (mt, cur1)) :
    ∀ (fuel k : Nat) (pre : List Metric) (cur : Cursor), k + 1 ≤ fuel →
      c.NumMetrics = ((pre.length + k : Nat) : Int) →
      ∃ (runs : List (List Metric)) (cur1 : Cursor),
        catalogLoop env gas c mand opt ot li lf (R : Int) fuel (pre.length : Int)
            (pre.map some ++ List.replicate k none) cur =
          Except.ok ((pre ++ runs.flatten).map some, cur1) ∧
        runs.flatten.length = k ∧
        (∀ run ∈ runs, 1 ≤ run.length ∧ run.length ≤ R ∧ ∃ name, ∀ m ∈ run, m.name = name) ∧
        (∀ run ∈ runs.dropLast, run.length = R) := by
  intro fuel
  induction fuel with
  | zero =>
      intro k pre cur hf
      omega
  | succ fuel ih =>
      intro k pre cur hf hC
      cases k with
      | zero =>
          have hge : (pre.length : Int) ≥ c.NumMetrics := by
            rw [hC]
            simp
          exact ⟨[], cur, by simp [catalogLoop, hge], by simp, by simp, by simp⟩
      | succ k =>
          have hlt : ¬ (pre.length : Int) ≥ c.NumMetrics := by
            rw [hC]
            push_cast
            omega
          obtain ⟨run, cur2, hrun, hlen, hall⟩ :=
            fillRun_spec env gas mand opt ot (kindAt li lf (pre.length : Int))
              ((kindAt li lf (pre.length : Int)).namePrefix ++
                (env.uuid cur.uuids).val.take c.MetricNameSize.toNat) htag R (k + 1) pre
              { cur with uuids := cur.uuids + 1 } (by rw [← hC]; exact hN)
          have hlen1 : 1 ≤ run.length ∧ run.length ≤ R ∧ run.length ≤ k + 1 := by
            rw [hlen]
            omega
          obtain ⟨runs, cur3, hloop, hflat, hruns, hlast⟩ :=
            ih (k + 1 - run.length) (pre ++ run) cur2 (by omega)
              (by rw [hC, List.length_append]; congr 1; omega)
          rw [List.length_append] at hloop
          refine ⟨run :: runs, cur3, ?_, ?_, ?_, ?_⟩
          · rw [catalogLoop, if_neg hlt]
            simp only [uuidPrefix, hsize, and_self, if_true, Int.toNat_ofNat, hC, hrun, hloop]
            simp
          · simp only [List.flatten_cons, List.length_append, hflat]
            omega
          · intro x hx
            rcases List.mem_cons.mp hx with rfl | hx
            · exact ⟨hlen1.1, hlen1.2.1, _, fun m hm => (hall m hm).1⟩
            · exact hruns x hx
          · cases runs with
            | nil => simp
            | cons r rs =>
                have hr := (hruns r (List.mem_cons_self r rs)).1
                simp only [List.flatten_cons, List.length_append] at hflat
                intro x hx
                rw [List.dropLast_cons₂] at hx
                rcases List.mem_cons.mp hx with rfl | hx
                · omega
                · exact hlast x hx

/-- With a run size that is not positive, a turn of the loop of `NewMetricFactory`
leaves `i` as it is: the loop is still running after any number of turns. -/
theorem catalogLoop_stuck (env : Env) (gas : Nat) (c : ConfigSet) (mand opt : TagsFactory)
    (ot li lf np : Int) (hnp : np.toNat = 0)
    (hsize : 0 ≤ c.MetricNameSize ∧ c.MetricNameSize ≤ 36) (i : Int) (hi : i < c.NumMetrics)
    (ml : List (Option Metric)) :
    ∀ (fuel : Nat) (cur : Cursor),
      catalogLoop env gas c mand opt ot li lf np fuel i ml cur = Except.error Fault.outOfFuel
  | 0, _ => rfl
  | fuel + 1, cur => by
      rw [catalogLoop, if_neg (not_le.mpr hi)]
      simp only [uuidPrefix, hsize, and_self, if_true, hnp, fillRun]
      exact catalogLoop_stuck env gas c mand opt ot li lf np hnp hsize i hi ml fuel _

/-- C2 (code bug): with `num_metrics = 3` and `metric_per_metricname_ratio = 2^62`
(both not negative) the product wraps to `-2^62`, the run size is
`-46116860184273879` (not `max(1, ...)`: only a run size of 0 is raised to 1),
the inner loop makes no turn, and in every environment the loop of
`NewMetricFactory` is still running after any number of turns. -/
theorem C2_run_size_wraps (env : Env) (gas fuel : Nat) :
    0 ≤ wrapRunConfig.NumMetrics ∧ 0 ≤ wrapRunConfig.MetricPerMetricNameRatio ∧
    wrap64 (wrapRunConfig.NumMetrics * wrapRunConfig.MetricPerMetricNameRatio) =
      -4611686018427387904 ∧
    numPerMetricName wrapRunConfig = -46116860184273879 ∧
    buildCatalog env gas fuel wrapRunConfig Cursor.zero = Except.error Fault.outOfFuel := by
  refine ⟨by decide, by decide, by decide, by decide, ?_⟩
  have h1 : NewTagsFactoryFromList env wrapRunConfig.MandatoryTags Cursor.zero =
      Except.ok (∅, { Cursor.zero with ranges := 1 }) := rfl
  have h2 : ∀ cur, NewTagsFactoryFromNum env (optionalTag wrapRunConfig) cur =
      Except.ok (∅, cur) := fun _ => rfl
  have h3 : ¬ (wrapRunConfig.NumMetrics < 0 ∨ maxLen < wrapRunConfig.NumMetrics) := by decide
  simp only [buildCatalog, h1, h2, fillCatalog, if_neg h3]
  exact catalogLoop_stuck env gas wrapRunConfig ∅ ∅ _ _ _ _ (by decide) (by decide) 0
    (by decide) _ fuel _

end metrics
namespace metrics

/-! ## Tag strings -/

theorem shuffle_perm {α : Type} : ∀ (l : List α) (seed : Nat), (shuffle seed l).Perm l
  | [], _ => List.Perm.refl _
  | x :: xs, seed => by
      have ih := shuffle_perm xs (seed / (xs.length + 1))
      have hle : seed % (xs.length + 1) ≤ (shuffle (seed / (xs.length + 1)) xs).length := by
        rw [ih.length_eq]
        exact Nat.le_of_lt_succ (Nat.mod_lt _ (Nat.succ_pos _))
      exact (List.perm_insertIdx x _ hle).trans (ih.cons x)

theorem kvAll_spec (env : Env) :
    ∀ (l : List (Sigma (fun _ : Bytes => List Bytes))) (cur : Cursor)
      (a : List (Bytes × Bytes)) (cur1 : Cursor),
      kvAll env l cur = Except.ok (a, cur1) →
      a.map Prod.fst = l.map Sigma.fst ∧
        ∀ p ∈ a, ∃ vals, (⟨p.1, vals⟩ : Sigma (fun _ : Bytes => List Bytes)) ∈ l ∧ p.2 ∈ vals
  | [], cur, a, cur1, h => by
      simp only [kvAll, Except.ok.injEq, Prod.mk.injEq] at h
      obtain ⟨rfl, _⟩ := h
      simp
  | ⟨k, v⟩ :: rest, cur, a, cur1, h => by
      rw [kvAll] at h
      split at h
      · exact absurd h (by simp)
      · rename_i ind cur2 _
        split at h
        · exact absurd h (by simp)
        · rename_i x hx
          split at h
          · exact absurd h (by simp)
          · rename_i arr cur3 hrest
            simp only [Except.ok.injEq, Prod.mk.injEq] at h
            obtain ⟨rfl, _⟩ := h
            obtain ⟨h1, h2⟩ := kvAll_spec env rest cur2 arr cur3 hrest
            refine ⟨by simp [h1], ?_⟩
            intro p hp
            rcases List.mem_cons.mp hp with rfl | hp
            · exact ⟨v, List.mem_cons_self _ _, List.get?_mem hx⟩
            · obtain ⟨vals, hv1, hv2⟩ := h2 p hp
              exact ⟨vals, List.mem_cons_of_mem _ hv1, hv2⟩

theorem kvSome_spec (env : Env) (s : List Nat) :
    ∀ (l : List (Sigma (fun _ : Bytes => List Bytes))) (count : Nat) (cur : Cursor)
      (b : List (Bytes × Bytes)) (cur1 : Cursor),
      kvSome env s l count cur = Except.ok (b, cur1) →
      (b.map Prod.fst).Sublist (l.map Sigma.fst) ∧
        ∀ p ∈ b, ∃ vals, (⟨p.1, vals⟩ : Sigma (fun _ : Bytes => List Bytes)) ∈ l ∧ p.2 ∈ vals
  | [], count, cur, b, cur1, h => by
      simp only [kvSome, Except.ok.injEq, Prod.mk.injEq] at h
      obtain ⟨rfl, _⟩ := h
      simp
  | ⟨k, v⟩ :: rest, count, cur, b, cur1, h => by
      rw [kvSome] at h
      split at h
      · split at h
        · exact absurd h (by simp)
        · rename_i ind cur2 _
          split at h
          · exact absurd h (by simp)
          · rename_i x hx
            split at h
            · exact absurd h (by simp)
            · rename_i arr cur3 hrest
              simp only [Except.ok.injEq, Prod.mk.injEq] at h
              obtain ⟨rfl, _⟩ := h
              obtain ⟨h1, h2⟩ := kvSome_spec env s rest (count + 1) cur2 arr cur3 hrest
              refine ⟨by simpa using h1.cons₂ k, ?_⟩
              intro p hp
              rcases List.mem_cons.mp hp with rfl | hp
              · exact ⟨v, List.mem_cons_self _ _, List.get?_mem hx⟩
              · obtain ⟨vals, hv1, hv2⟩ := h2 p hp
                exact ⟨vals, List.mem_cons_of_mem _ hv1, hv2⟩
      · obtain ⟨h1, h2⟩ := kvSome_spec env s rest (count + 1) cur b cur1 h
        refine ⟨by simpa using h1.cons k, ?_⟩
        intro p hp
        obtain ⟨vals, hv1, hv2⟩ := h2 p hp
        exact ⟨vals, List.mem_cons_of_mem _ hv1, hv2⟩

theorem valuesFrom_of_shuffled (tf : TagsFactory) (seed : Nat) (ps : List (Bytes × Bytes))
    (h : ∀ p ∈ ps, ∃ vals, (⟨p.1, vals⟩ : Sigma (fun _ : Bytes => List Bytes)) ∈
      shuffle seed tf.entries ∧ p.2 ∈ vals) : ValuesFrom tf ps := by
  intro p hp
  obtain ⟨vals, h1, h2⟩ := h p hp
  refine ⟨vals, ?_, h2⟩
  have hmem := (shuffle_perm tf.entries seed).subset h1
  exact Option.mem_def.mp (AList.mem_lookup_iff.mpr hmem)

theorem tagString_spec (env : Env) (gas : Nat) (mand opt : TagsFactory) (ot : Int)
    (cur : Cursor) (mt : Bytes) (cur1 : Cursor)
    (h : tagString env gas mand opt ot cur = Except.ok (mt, cur1)) : WellTagged mand opt mt := by
  unfold tagString KVAllTags at h
  cases hA : KVAllTags.pairs env mand cur with
  | error f =>
      rw [hA] at h
      simp at h
  | ok ra =>
      obtain ⟨a, cur2⟩ := ra
      rw [hA] at h
      simp only at h
      unfold KVSomeTags at h
      cases hB : KVSomeTags.pairs env gas opt ot cur2 with
      | error f =>
          rw [hB] at h
          simp at h
      | ok rb =>
          obtain ⟨b, cur3⟩ := rb
          rw [hB] at h
          simp only [Except.ok.injEq, Prod.mk.injEq] at h
          obtain ⟨rfl, _⟩ := h
          obtain ⟨ha1, ha2⟩ := kvAll_spec env _ _ a cur2 hA
          unfold KVSomeTags.pairs at hB
          cases hR : roulette env opt.entries.length ot gas (setNew1000 env) cur2 with
          | error f =>
              rw [hR] at hB
              simp at hB
          | ok rs =>
              obtain ⟨s, cur4⟩ := rs
              rw [hR] at hB
              obtain ⟨hb1, hb2⟩ := kvSome_spec env s _ 0 _ b cur3 hB
              have hpo := (shuffle_perm opt.entries (env.order cur4.ranges)).map Sigma.fst
              refine ⟨a, b, by simp [List.map_append], ?_, ?_, ?_, ?_, ?_⟩
              · rw [ha1]
                exact (shuffle_perm mand.entries (env.order cur.ranges)).map Sigma.fst
              · exact valuesFrom_of_shuffled mand _ a ha2
              · exact (hpo.nodup_iff.mpr opt.keys_nodup).sublist hb1
              · have := hb1.length_le
                rw [List.length_map, List.length_map] at this
                exact this.trans (le_of_eq (shuffle_perm opt.entries _).length_eq)
              · exact valuesFrom_of_shuffled opt _ b hb2

theorem fromListLoop_keys (env : Env) :
    ∀ (l : List (Sigma (fun _ : Bytes => Int))) (tf : TagsFactory) (cur : Cursor)
      (tf1 : TagsFactory) (cur1 : Cursor),
      fromListLoop env l tf cur = Except.ok (tf1, cur1) →
      ∀ k, k ∈ tf1.keys ↔ k ∈ l.map Sigma.fst ∨ k ∈ tf.keys
  | [], tf, cur, tf1, cur1, h => by
      simp only [fromListLoop, Except.ok.injEq, Prod.mk.injEq] at h
      obtain ⟨rfl, _⟩ := h
      simp
  | ⟨k0, v⟩ :: rest, tf, cur, tf1, cur1, h => by
      rw [fromListLoop] at h
      split at h
      · exact absurd h (by simp)
      · split at h
        · exact absurd h (by simp)
        · rename_i vals cur2 _
          intro k
          rw [fromListLoop_keys env rest _ cur2 tf1 cur1 h k, ← AList.mem_keys, AList.mem_insert,
            AList.mem_keys]
          simp only [List.map_cons, List.mem_cons]
          tauto

theorem NewTagsFactoryFromList_keys (env : Env) (tagList : AList (fun _ : Bytes => Int))
    (cur : Cursor) (mand : TagsFactory) (cur1 : Cursor)
    (h : NewTagsFactoryFromList env tagList cur = Except.ok (mand, cur1)) :
    mand.keys.Perm tagList.keys := by
  have hk := fromListLoop_keys env _ _ _ mand cur1 h
  refine (List.perm_ext_iff_of_nodup mand.keys_nodup tagList.keys_nodup).mpr ?_
  intro k
  rw [hk k]
  have hp := ((shuffle_perm tagList.entries (env.order cur.ranges)).map Sigma.fst).mem_iff
    (a := k)
  constructor
  · rintro (h1 | h1)
    · exact hp.mp h1
    · exact absurd h1 (by simp)
  · intro h1
    exact Or.inl (hp.mpr h1)

theorem appendValues_keys (env : Env) (t : Bytes) :
    ∀ (n : Nat) (tf : TagsFactory) (cur : Cursor) (tf1 : TagsFactory) (cur1 : Cursor),
      appendValues env t n tf cur = Except.ok (tf1, cur1) →
      ∀ k, k ∈ tf1.keys → k = t ∨ k ∈ tf.keys
  | 0, tf, cur, tf1, cur1, h => by
      simp only [appendValues, Except.ok.injEq, Prod.mk.injEq] at h
      obtain ⟨rfl, _⟩ := h
      exact fun k hk => Or.inr hk
  | n + 1, tf, cur, tf1, cur1, h => by
      rw [appendValues] at h
      split at h
      · exact absurd h (by simp)
      · rename_i u cur2 _
        intro k hk
        rcases appendValues_keys env t n _ cur2 tf1 cur1 h k hk with h1 | h1
        · exact Or.inl h1
        · rw [← AList.mem_keys, AList.mem_insert, AList.mem_keys] at h1
          exact h1

theorem fromNumLoop_length (env : Env) :
    ∀ (n : Nat) (tf : TagsFactory) (cur : Cursor) (tf1 : TagsFactory) (cur1 : Cursor),
      fromNumLoop env n tf cur = Except.ok (tf1, cur1) →
      tf1.entries.length ≤ tf.entries.length + n
  | 0, tf, cur, tf1, cur1, h => by
      simp only [fromNumLoop, Except.ok.injEq, Prod.mk.injEq] at h
      obtain ⟨rfl, _⟩ := h
      exact Nat.le_refl _
  | n + 1, tf, cur, tf1, cur1, h => by
      rw [fromNumLoop] at h
      split at h
      · exact absurd h (by simp)
      · rename_i u cur2 _
        split at h
        · exact absurd h (by simp)
        · rename_i tf2 cur3 happ
          have h1 := fromNumLoop_length env n tf2 cur3 tf1 cur1 h
          have hsub : tf2.keys ⊆ (str "tag_" ++ u) :: tf.keys := by
            intro k hk
            rcases appendValues_keys env _ _ tf cur2 tf2 cur3 happ k hk with h2 | h2
            · exact h2 ▸ List.mem_cons_self _ _
            · exact List.mem_cons_of_mem _ h2
          have h2 := (List.subperm_of_subset tf2.keys_nodup hsub).length_le
          have e1 : tf2.keys.length = tf2.entries.length := List.length_map _ _
          have e2 : tf.keys.length = tf.entries.length := List.length_map _ _
          rw [List.length_cons] at h2
          omega

theorem NewMetric_tags (env : Env) (kind : Kind) (name tags : Bytes) (cur : Cursor)
    (m : Metric) (cur1 : Cursor) (h : NewMetric env kind name tags cur = Except.ok (m, cur1)) :
    m.tags = tags := by
  obtain ⟨m1, cur2, h1, _, h2, _⟩ := NewMetric_ok env kind name tags cur
  rw [h1] at h
  simp only [Except.ok.injEq, Prod.mk.injEq] at h
  rw [← h.1]
  exact h2

theorem fillRun_tags (env : Env) (gas : Nat) (numMetrics : Int) (mand opt : TagsFactory)
    (ot : Int) (kind : Kind) (name : Bytes) :
    ∀ (left : Nat) (i : Int) (ml : List (Option Metric)) (cur : Cursor) (i1 : Int)
      (ml1 : List (Option Metric)) (cur1 : Cursor),
      fillRun env gas numMetrics mand opt ot kind name left i ml cur = Except.ok (i1, ml1, cur1) →
      (∀ m, some m ∈ ml → WellTagged mand opt m.tags) →
      ∀ m, some m ∈ ml1 → WellTagged mand opt m.tags
  | 0, i, ml, cur, i1, ml1, cur1, h, hml => by
      simp only [fillRun, Except.ok.injEq, Prod.mk.injEq] at h
      obtain ⟨_, rfl, _⟩ := h
      exact hml
  | left + 1, i, ml, cur, i1, ml1, cur1, h, hml => by
      rw [fillRun] at h
      split at h
      · split at h
        · exact absurd h (by simp)
        · rename_i mt cur2 htag
          split at h
          · exact absurd h (by simp)
          · rename_i m0 cur3 hnew
            refine fillRun_tags env gas numMetrics mand opt ot kind name left _ _ cur3 i1 ml1
              cur1 h ?_
            intro m hm
            rcases List.mem_or_eq_of_mem_set hm with h1 | h1
            · exact hml m h1
            · obtain rfl : m = m0 := Option.some.inj h1
              rw [NewMetric_tags env kind name mt cur2 m cur3 hnew]
              exact tagString_spec env gas mand opt ot cur mt cur2 htag
      · simp only [Except.ok.injEq, Prod.mk.injEq] at h
        obtain ⟨_, rfl, _⟩ := h
        exact hml

theorem catalogLoop_tags (env : Env) (gas : Nat) (c : ConfigSet) (mand opt : TagsFactory)
    (ot li lf np : Int) :
    ∀ (fuel : Nat) (i : Int) (ml : List (Option Metric)) (cur : Cursor)
      (ml1 : List (Option Metric)) (cur1 : Cursor),
      catalogLoop env gas c mand opt ot li lf np fuel i ml cur = Except.ok (ml1, cur1) →
      (∀ m, some m ∈ ml → WellTagged mand opt m.tags) →
      ∀ m, some m ∈ ml1 → WellTagged mand opt m.tags
  | 0, i, ml, cur, ml1, cur1, h, _ => by
      simp [catalogLoop] at h
  | fuel + 1, i, ml, cur, ml1, cur1, h, hml => by
      rw [catalogLoop] at h
      split at h
      · simp only [Except.ok.injEq, Prod.mk.injEq] at h
        obtain ⟨rfl, _⟩ := h
        exact hml
      · split at h
        · exact absurd h (by simp)
        · rename_i u cur2 _
          split at h
          · exact absurd h (by simp)
          · rename_i i2 ml2 cur3 hrun
            exact catalogLoop_tags env gas c mand opt ot li lf np fuel i2 ml2 cur3 ml1 cur1 h
              (fillRun_tags env gas _ mand opt ot _ _ _ i ml cur2 i2 ml2 cur3 hrun hml)

/-! ## The build returns when the budget leaves no optional tag -/

theorem newValues_ok (env : Env) : ∀ (n : Nat) (cur : Cursor),
    ∃ (vals : List Bytes) (cur1 : Cursor),
      newValues env n cur = Except.ok (vals, cur1) ∧ vals.length = n
  | 0, cur => ⟨[], cur, rfl, rfl⟩
  | n + 1, cur => by
      obtain ⟨vals, cur1, h, hl⟩ := newValues_ok env n { cur with uuids := cur.uuids + 1 }
      refine ⟨(env.uuid cur.uuids).val.take TagSize.toNat :: vals, cur1, ?_, by simp [hl]⟩
      simp [newValues, uuidPrefix, TagSize, h]

theorem fromListLoop_ok (env : Env) :
    ∀ (l : List (Sigma (fun _ : Bytes => Int))) (tf : TagsFactory) (cur : Cursor),
      (∀ e ∈ l, 1 ≤ e.2 ∧ e.2 ≤ maxLen) → (∀ e ∈ tf.entries, e.2 ≠ []) →
      ∃ (tf1 : TagsFactory) (cur1 : Cursor),
        fromListLoop env l tf cur = Except.ok (tf1, cur1) ∧ ∀ e ∈ tf1.entries, e.2 ≠ []
  | [], tf, cur, _, htf => ⟨tf, cur, rfl, htf⟩
  | ⟨k, v⟩ :: rest, tf, cur, hl, htf => by
      have hv : 1 ≤ v ∧ v ≤ maxLen := hl ⟨k, v⟩ (List.mem_cons_self _ _)
      obtain ⟨vals, cur1, hvals, hlen⟩ := newValues_ok env v.toNat cur
      have hne : vals ≠ [] := by
        intro h0
        rw [h0] at hlen
        simp at hlen
        omega
      obtain ⟨tf1, cur2, h1, h2⟩ := fromListLoop_ok env rest (tf.insert k vals) cur1
        (fun e he => hl e (List.mem_cons_of_mem _ he))
        (by
          intro e he
          rw [AList.insert_entries] at he
          rcases List.mem_cons.mp he with rfl | he
          · exact hne
          · exact htf e ((List.kerase_sublist k tf.entries).subset he))
      refine ⟨tf1, cur2, ?_, h2⟩
      rw [fromListLoop, if_neg (by omega)]
      simp only [hvals, h1]

theorem kvAll_ok (env : Env) :
    ∀ (l : List (Sigma (fun _ : Bytes => List Bytes))) (cur : Cursor),
      (∀ e ∈ l, e.2 ≠ []) →
      ∃ (a : List (Bytes × Bytes)) (cur1 : Cursor), kvAll env l cur = Except.ok (a, cur1)
  | [], cur, _ => ⟨[], cur, rfl⟩
  | ⟨k, v⟩ :: rest, cur, hl => by
      have hv : v ≠ [] := hl ⟨k, v⟩ (List.mem_cons_self _ _)
      have hpos : 0 < v.length := List.length_pos.mpr hv
      obtain ⟨x, hx⟩ : ∃ x, v.get? (env.intn cur.ints % v.length) = some x :=
        ⟨_, List.get?_eq_get (Nat.mod_lt _ hpos)⟩
      obtain ⟨arr, cur2, h⟩ := kvAll_ok env rest { cur with ints := cur.ints + 1 }
        (fun e he => hl e (List.mem_cons_of_mem _ he))
      refine ⟨(k, x) :: arr, cur2, ?_⟩
      rw [kvAll]
      simp only [Intn, if_neg (Nat.pos_iff_ne_zero.mp hpos), hx, h]

theorem tagString_ok (env : Env) (gas : Nat) (mand : TagsFactory) (ot : Int) (hot : ot ≤ 0)
    (hmand : ∀ e ∈ mand.entries, e.2 ≠ []) (cur : Cursor) :
    ∃ mt cur1, tagString env gas mand ∅ ot cur = Except.ok (mt, cur1) := by
  obtain ⟨a, cur1, ha⟩ := kvAll_ok env (shuffle (env.order cur.ranges) mand.entries)
    { cur with ranges := cur.ranges + 1 }
    (fun e he => hmand e ((shuffle_perm _ _).subset he))
  have hr : ∀ s, roulette env 0 ot gas s cur1 = Except.ok (s, cur1) := by
    intro s
    have hn : ¬ ((s.length : Int) < ot) := by omega
    cases gas <;> simp [roulette, hn]
  refine ⟨join (a.map (fun p => kv p.1 p.2) ++ []), { cur1 with ranges := cur1.ranges + 1 }, ?_⟩
  simp only [tagString, KVAllTags, KVAllTags.pairs, rangeOver, ha, KVSomeTags, KVSomeTags.pairs,
    AList.empty_entries, List.length_nil, hr, shuffle, kvSome, List.map_nil]

theorem fromNumLoop_keys (env : Env) :
    ∀ (n : Nat) (tf : TagsFactory) (cur : Cursor) (tf1 : TagsFactory) (cur1 : Cursor),
      fromNumLoop env n tf cur = Except.ok (tf1, cur1) →
      ∀ k ∈ tf1.keys,
        (∃ j, k = str "tag_" ++ (env.uuid j).val.take TagSize.toNat) ∨ k ∈ tf.keys
  | 0, tf, cur, tf1, cur1, h => by
      simp only [fromNumLoop, Except.ok.injEq, Prod.mk.injEq] at h
      obtain ⟨rfl, _⟩ := h
      exact fun k hk => Or.inr hk
  | n + 1, tf, cur, tf1, cur1, h => by
      rw [fromNumLoop] at h
      split at h
      · exact absurd h (by simp)
      · rename_i u cur2 hu
        split at h
        · exact absurd h (by simp)
        · rename_i tf2 cur3 happ
          have hu1 : u = (env.uuid cur.uuids).val.take TagSize.toNat := by
            unfold uuidPrefix at hu
            split at hu
            · simp only [Except.ok.injEq, Prod.mk.injEq] at hu
              exact hu.1.symm
            · exact absurd hu (by simp)
          intro k hk
          rcases fromNumLoop_keys env n tf2 cur3 tf1 cur1 h k hk with h1 | h1
          · exact Or.inl h1
          · rcases appendValues_keys env _ _ tf cur2 tf2 cur3 happ k h1 with h2 | h2
            · exact Or.inl ⟨cur.uuids, by rw [h2, hu1]⟩
            · exact Or.inr h2

theorem buildCatalog_tags (env : Env) (gas fuel : Nat) (c : ConfigSet) (cur : Cursor)
    (ml : List (Option Metric)) (cur3 : Cursor)
    (h : buildCatalog env gas fuel c cur = Except.ok (ml, cur3)) :
    ∃ (mand opt : TagsFactory) (cur1 cur2 : Cursor),
      NewTagsFactoryFromList env c.MandatoryTags cur = Except.ok (mand, cur1) ∧
      NewTagsFactoryFromNum env (optionalTag c) cur1 = Except.ok (opt, cur2) ∧
      ∀ m, some m ∈ ml → WellTagged mand opt m.tags := by
  unfold buildCatalog at h
  cases hA : NewTagsFactoryFromList env c.MandatoryTags cur with
  | error f =>
      rw [hA] at h
      simp at h
  | ok ra =>
      obtain ⟨mand, cur1⟩ := ra
      rw [hA] at h
      simp only at h
      cases hB : NewTagsFactoryFromNum env (optionalTag c) cur1 with
      | error f =>
          rw [hB] at h
          simp at h
      | ok rb =>
          obtain ⟨opt, cur2⟩ := rb
          rw [hB] at h
          simp only at h
          refine ⟨mand, opt, cur1, cur2, rfl, hB, ?_⟩
          unfold fillCatalog at h
          split at h
          · exact absurd h (by simp)
          · exact catalogLoop_tags env gas c mand opt _ _ _ _ fuel _ _ cur2 ml cur3 h
              (fun m hm => absurd (List.eq_of_mem_replicate hm) (by simp))

theorem buildCatalog_ok (env : Env) (gas fuel : Nat) (c : ConfigSet) (cur : Cursor)
    (hB : c.TagsPerMetric ≤ (c.MandatoryTags.keys.length : Int))
    (hv : ∀ e ∈ c.MandatoryTags.entries, 1 ≤ e.2 ∧ e.2 ≤ maxLen) (hC : 0 ≤ c.NumMetrics)
    (hp : 0 ≤ c.MetricPerMetricNameRatio)
    (hsize : 0 ≤ c.MetricNameSize ∧ c.MetricNameSize ≤ 36)
    (hfuel : c.NumMetrics.toNat + 1 ≤ fuel)
    (hBlo : -9223372036854775808 ≤ c.TagsPerMetric - (c.MandatoryTags.keys.length : Int))
    (hNmax : c.NumMetrics ≤ maxLen)
    (hP : c.NumMetrics * c.MetricPerMetricNameRatio < 9223372036854775808) :
    ∃ (ml : List (Option Metric)) (cur3 : Cursor),
      buildCatalog env gas fuel c cur = Except.ok (ml, cur3) ∧
      (ml.length : Int) = c.NumMetrics ∧ none ∉ ml := by
  have hk : c.MandatoryTags.keys.length = c.MandatoryTags.entries.length := List.length_map _ _
  have hmax : maxLen = 17592186044416 := rfl
  have hN : c.NumMetrics < 9223372036854775808 := by omega
  have hot : optionalTag c ≤ 0 := by
    unfold optionalTag
    rw [wrap64_eq _ (by omega) (by omega)]
    omega
  obtain ⟨mand, cur1, hmand, hne⟩ := fromListLoop_ok env
    (shuffle (env.order cur.ranges) c.MandatoryTags.entries) ∅
    { cur with ranges := cur.ranges + 1 }
    (fun e he => hv e ((shuffle_perm _ _).subset he)) (by simp)
  have hopt : NewTagsFactoryFromNum env (optionalTag c) cur1 = Except.ok (∅, cur1) := by
    have h0 : (optionalTag c).toNat = 0 := by omega
    simp [NewTagsFactoryFromNum, h0, fromNumLoop]
  have hprod : 0 ≤ c.NumMetrics * c.MetricPerMetricNameRatio := mul_nonneg hC hp
  have hdiv : 0 ≤ Int.tdiv (c.NumMetrics * c.MetricPerMetricNameRatio) 100 :=
    Int.tdiv_nonneg hprod (by decide)
  have hnum : 1 ≤ numPerMetricName c := by
    unfold numPerMetricName
    rw [wrap64_eq _ (by omega) hP]
    split_ifs with h0 <;> omega
  obtain ⟨R, hRe⟩ : ∃ R : Nat, (R : Int) = numPerMetricName c :=
    ⟨(numPerMetricName c).toNat, by omega⟩
  obtain ⟨runs, cur3, hloop, hflat, _, _⟩ :=
    catalogLoop_spec env gas c mand ∅ (optionalTag c) (limitInt c) (limitFloat c) R (by omega)
      hsize hN (tagString_ok env gas mand (optionalTag c) hot hne) fuel c.NumMetrics.toNat [] cur1
      hfuel (by simp; omega)
  refine ⟨runs.flatten.map some, cur3, ?_, ?_, by simp⟩
  · have hmand1 : NewTagsFactoryFromList env c.MandatoryTags cur = Except.ok (mand, cur1) := hmand
    simp only [buildCatalog, hmand1, hopt]
    rw [fillCatalog, if_neg (by omega), ← hRe]
    simpa using hloop
  · rw [List.length_map, hflat]
    omega

theorem built_tags (env : Env) (gas fuel : Nat) (c : ConfigSet) (cur : Cursor)
    (hBlo : -9223372036854775808 ≤ c.TagsPerMetric - (c.MandatoryTags.keys.length : Int))
    (hBhi : c.TagsPerMetric < 9223372036854775808)
    (ml : List (Option Metric)) (cur3 : Cursor)
    (h : buildCatalog env gas fuel c cur = Except.ok (ml, cur3)) :
    ∃ (mand opt : TagsFactory) (cur1 cur2 : Cursor),
      NewTagsFactoryFromList env c.MandatoryTags cur = Except.ok (mand, cur1) ∧
      NewTagsFactoryFromNum env (optionalTag c) cur1 = Except.ok (opt, cur2) ∧
      ∀ m, some m ∈ ml → ∃ a b : List (Bytes × Bytes),
        m.tags = join ((a ++ b).map (fun p => kv p.1 p.2)) ∧
        (a.map Prod.fst).Perm c.MandatoryTags.keys ∧ ValuesFrom mand a ∧
        (b.length : Int) ≤ max 0 (c.TagsPerMetric - (c.MandatoryTags.keys.length : Int)) ∧
        (b.map Prod.fst).Nodup ∧ ValuesFrom opt b ∧
        ((∀ k ∈ c.MandatoryTags.keys, ∀ t, k ≠ str "tag_" ++ t) →
          ((a ++ b).map Prod.fst).Nodup) := by
  obtain ⟨mand, opt, cur1, cur2, hA, hB, hall⟩ := buildCatalog_tags env gas fuel c cur ml cur3 h
  have hkeys := NewTagsFactoryFromList_keys env c.MandatoryTags cur mand cur1 hA
  have hlen := fromNumLoop_length env _ ∅ cur1 opt cur2 hB
  have hoptk := fromNumLoop_keys env _ ∅ cur1 opt cur2 hB
  have hk : c.MandatoryTags.keys.length = c.MandatoryTags.entries.length := List.length_map _ _
  refine ⟨mand, opt, cur1, cur2, hA, hB, ?_⟩
  intro m hm
  obtain ⟨a, b, ht, ha, hva, hbn, hbl, hvb⟩ := hall m hm
  refine ⟨a, b, ht, ha.trans hkeys, hva, ?_, hbn, hvb, ?_⟩
  · simp only [AList.empty_entries, List.length_nil, Nat.zero_add] at hlen
    unfold optionalTag at hlen
    rw [wrap64_eq _ (by omega) (by omega)] at hlen
    omega
  · intro hpre
    rw [List.map_append]
    refine List.Nodup.append ((ha.trans hkeys).nodup_iff.mpr c.MandatoryTags.keys_nodup) hbn ?_
    intro k hka hkb
    have hkc : k ∈ c.MandatoryTags.keys := (ha.trans hkeys).subset hka
    obtain ⟨p, hp, rfl⟩ := List.mem_map.mp hkb
    obtain ⟨vals, hl, _⟩ := hvb p hp
    have hmem : p.1 ∈ opt.keys :=
      AList.mem_keys.mp (AList.lookup_isSome.mp (by rw [hl]; rfl))
    rcases hoptk p.1 hmem with ⟨j, hj⟩ | h0
    · exact hpre p.1 hkc _ hj
    · exact absurd h0 (by simp)

/-- C9 (amended): for a budget `B = TagsPerMetric` such that `B - m` is in the
range of an `int` (`m` the number of mandatory keys), whenever
`NewMetricFactory` has built its metric list, the tag string of every metric
is the join of entries `key=value` of pairs `a` followed by pairs `b`: `a`
has exactly one pair for each key of `MandatoryTags`, its value one of the
values generated for the key; `b` has at most `max(0, B - m)` pairs, of
distinct keys of the optional tags; and no key occurs twice in the string
when no mandatory key begins with `tag_`. When moreover `B ≤ m`, every
mandatory key has at least one value, `NumMetrics` and the per-name ratio are
not negative, their product is in the range of an `int`, `NumMetrics` and the
numbers of values are lengths `make` accepts, and the name size is at most 36,
the build returns with any fuel above `NumMetrics`, and every tag string is
made of the mandatory entries alone. -/
theorem C9_tag_strings (env : Env) (gas fuel : Nat) (c : ConfigSet) (cur : Cursor)
    (hBlo : -9223372036854775808 ≤ c.TagsPerMetric - (c.MandatoryTags.keys.length : Int))
    (hBhi : c.TagsPerMetric < 9223372036854775808) :
    (∀ ml cur3, buildCatalog env gas fuel c cur = Except.ok (ml, cur3) →
      ∃ (mand opt : TagsFactory) (cur1 cur2 : Cursor),
        NewTagsFactoryFromList env c.MandatoryTags cur = Except.ok (mand, cur1) ∧
        NewTagsFactoryFromNum env (optionalTag c) cur1 = Except.ok (opt, cur2) ∧
        ∀ m, some m ∈ ml → ∃ a b : List (Bytes × Bytes),
          m.tags = join ((a ++ b).map (fun p => kv p.1 p.2)) ∧
          (a.map Prod.fst).Perm c.MandatoryTags.keys ∧ ValuesFrom mand a ∧
          (b.length : Int) ≤ max 0 (c.TagsPerMetric - (c.MandatoryTags.keys.length : Int)) ∧
          (b.map Prod.fst).Nodup ∧ ValuesFrom opt b ∧
          ((∀ k ∈ c.MandatoryTags.keys, ∀ t, k ≠ str "tag_" ++ t) →
            ((a ++ b).map Prod.fst).Nodup)) ∧
    (c.TagsPerMetric ≤ (c.MandatoryTags.keys.length : Int) →
      (∀ e ∈ c.MandatoryTags.entries, 1 ≤ e.2 ∧ e.2 ≤ maxLen) → 0 ≤ c.NumMetrics →
      0 ≤ c.MetricPerMetricNameRatio →
      c.NumMetrics ≤ maxLen →
      c.NumMetrics * c.MetricPerMetricNameRatio < 9223372036854775808 →
      0 ≤ c.MetricNameSize ∧ c.MetricNameSize ≤ 36 →
      c.NumMetrics.toNat + 1 ≤ fuel →
      ∃ ml cur3, buildCatalog env gas fuel c cur = Except.ok (ml, cur3) ∧
        (ml.length : Int) = c.NumMetrics ∧ none ∉ ml ∧
        ∀ m, some m ∈ ml → ∃ a : List (Bytes × Bytes),
          m.tags = join (a.map (fun p => kv p.1 p.2)) ∧
          (a.map Prod.fst).Perm c.MandatoryTags.keys) := by
  refine ⟨built_tags env gas fuel c cur hBlo hBhi, ?_⟩
  intro hB hv hC hp hN hP hsize hfuel
  obtain ⟨ml, cur3, hb, hlen, hnone⟩ :=
    buildCatalog_ok env gas fuel c cur hB hv hC hp hsize hfuel hBlo hN hP
  refine ⟨ml, cur3, hb, hlen, hnone, ?_⟩
  obtain ⟨mand, opt, cur1, cur2, _, _, hall⟩ :=
    built_tags env gas fuel c cur hBlo hBhi ml cur3 hb
  intro m hm
  obtain ⟨a, b, ht, ha, _, hbl, _⟩ := hall m hm
  have hb0 : b = [] := List.eq_nil_of_length_eq_zero (by omega)
  subst hb0
  exact ⟨a, by simpa using ht, ha⟩

/-- C9 (amended) on two metrics with the mandatory tag `host` (two values): with
a budget of three tags the build returns and its tag strings are as stated;
with a budget of no tag the build returns and the tag strings hold the entry
of `host` alone. -/
theorem C9_tag_strings_witness :
    (∃ ml cur3, buildCatalog variedEnv 5 3 taggedConfig Cursor.zero = Except.ok (ml, cur3) ∧
      ∃ (mand opt : TagsFactory) (cur1 cur2 : Cursor),
        NewTagsFactoryFromList variedEnv taggedConfig.MandatoryTags Cursor.zero =
          Except.ok (mand, cur1) ∧
        NewTagsFactoryFromNum variedEnv (optionalTag taggedConfig) cur1 = Except.ok (opt, cur2) ∧
        ∀ m, some m ∈ ml → ∃ a b : List (Bytes × Bytes),
          m.tags = join ((a ++ b).map (fun p => kv p.1 p.2)) ∧
          (a.map Prod.fst).Perm taggedConfig.MandatoryTags.keys ∧ ValuesFrom mand a ∧
          (b.length : Int) ≤
            max 0 (taggedConfig.TagsPerMetric - (taggedConfig.MandatoryTags.keys.length : Int)) ∧
          (b.map Prod.fst).Nodup ∧ ValuesFrom opt b ∧
          ((∀ k ∈ taggedConfig.MandatoryTags.keys, ∀ t, k ≠ str "tag_" ++ t) →
            ((a ++ b).map Prod.fst).Nodup)) ∧
    (∃ ml cur3, buildCatalog variedEnv 0 3 tightConfig Cursor.zero = Except.ok (ml, cur3) ∧
      (ml.length : Int) = tightConfig.NumMetrics ∧ none ∉ ml ∧
      ∀ m, some m ∈ ml → ∃ a : List (Bytes × Bytes),
        m.tags = join (a.map (fun p => kv p.1 p.2)) ∧
        (a.map Prod.fst).Perm tightConfig.MandatoryTags.keys) :=
  ⟨⟨_, _, rfl,
      (C9_tag_strings variedEnv 5 3 taggedConfig Cursor.zero (by decide) (by decide)).1 _ _ rfl⟩,
    (C9_tag_strings variedEnv 0 3 tightConfig Cursor.zero (by decide) (by decide)).2 (by decide)
      (by decide) (by decide) (by decide) (by decide) (by decide) (by decide) (by decide)⟩

/-! ## A budget below the least `int` plus the number of mandatory keys -/

theorem setAdd_inv (n x : Nat) (s : List Nat) (hx : x < n) (hnd : s.Nodup)
    (hs : ∀ y ∈ s, y = 1000 ∨ y < n) :
    (setAdd x s).Nodup ∧ ∀ y ∈ setAdd x s, y = 1000 ∨ y < n := by
  unfold setAdd
  split_ifs with h
  · exact ⟨hnd, hs⟩
  · refine ⟨List.Nodup.append hnd (List.nodup_singleton x) (List.disjoint_singleton.mpr h), ?_⟩
    intro y hy
    rcases List.mem_append.mp hy with h1 | h1
    · exact hs y h1
    · rw [List.mem_singleton] at h1
      exact Or.inr (h1 ▸ hx)

theorem roulette_set_length (n : Nat) (s : List Nat) (hnd : s.Nodup)
    (hs : ∀ y ∈ s, y = 1000 ∨ y < n) : s.length ≤ n + 1 := by
  have hsub : s ⊆ 1000 :: List.range n := by
    intro y hy
    rcases hs y hy with h | h
    · simp [h]
    · simp [h]
  have := (List.subperm_of_subset hnd hsub).length_le
  simpa using this

/-- The loop `for s.Size() < numTags` of `KVSomeTags` does not end when `numTags`
exceeds the number of entries of the map by more than one: the set holds at
most the numbers of the entries and 1000. -/
theorem roulette_stuck (env : Env) (n : Nat) (ot : Int) (hot : (n : Int) + 1 < ot) :
    ∀ (gas : Nat) (s : List Nat) (cur : Cursor), s.Nodup → (∀ y ∈ s, y = 1000 ∨ y < n) →
      ∃ f, roulette env n ot gas s cur = Except.error f
  | 0, s, cur, hnd, hs => by
      have := roulette_set_length n s hnd hs
      refine ⟨Fault.outOfFuel, ?_⟩
      rw [roulette, if_pos (by omega)]
  | gas + 1, s, cur, hnd, hs => by
      have := roulette_set_length n s hnd hs
      rw [roulette, if_pos (by omega)]
      by_cases h0 : n = 0
      · exact ⟨Fault.panic, by simp [Intn, h0]⟩
      · obtain ⟨h1, h2⟩ := setAdd_inv n (env.intn cur.ints % n) s
          (Nat.mod_lt _ (Nat.pos_of_ne_zero h0)) hnd hs
        obtain ⟨f, hf⟩ := roulette_stuck env n ot hot gas _ { cur with ints := cur.ints + 1 } h1 h2
        exact ⟨f, by simp only [Intn, if_neg h0, hf]⟩

theorem tagString_stuck (env : Env) (gas : Nat) (mand opt : TagsFactory) (ot : Int)
    (hot : (opt.entries.length : Int) + 1 < ot) (cur : Cursor) :
    ∃ f, tagString env gas mand opt ot cur = Except.error f := by
  unfold tagString
  cases hA : KVAllTags env mand cur with
  | error f => exact ⟨f, rfl⟩
  | ok ra =>
      obtain ⟨a, cur1⟩ := ra
      have hnd : (setNew1000 env).Nodup := by
        unfold setNew1000
        split_ifs <;> simp
      have hs : ∀ y ∈ setNew1000 env, y = 1000 ∨ y < opt.entries.length := by
        unfold setNew1000
        split_ifs <;> simp
      obtain ⟨f, hf⟩ := roulette_stuck env opt.entries.length ot hot gas (setNew1000 env) cur1
        hnd hs
      exact ⟨f, by simp only [KVSomeTags, KVSomeTags.pairs, hf]⟩

theorem catalogLoop_tag_error (env : Env) (gas : Nat) (c : ConfigSet) (mand opt : TagsFactory)
    (ot li lf np : Int) (hnp : 1 ≤ np.toNat)
    (hsize : 0 ≤ c.MetricNameSize ∧ c.MetricNameSize ≤ 36) (hi : 0 < c.NumMetrics)
    (ml : List (Option Metric))
    (htag : ∀ cur, ∃ f, tagString env gas mand opt ot cur = Except.error f) :
    ∀ (fuel : Nat) (cur : Cursor),
      ∃ f, catalogLoop env gas c mand opt ot li lf np fuel 0 ml cur = Except.error f
  | 0, _ => ⟨Fault.outOfFuel, rfl⟩
  | fuel + 1, cur => by
      obtain ⟨left, hl⟩ : ∃ left, np.toNat = left + 1 := ⟨np.toNat - 1, by omega⟩
      obtain ⟨f, hf⟩ := htag { cur with uuids := cur.uuids + 1 }
      refine ⟨f, ?_⟩
      rw [catalogLoop, if_neg (not_le.mpr hi)]
      simp only [uuidPrefix, hsize, and_self, if_true, hl, fillRun, if_pos hi, hf]

theorem exampleEnv_optional_keys (n : Nat) (cur : Cursor) (opt : TagsFactory) (cur1 : Cursor)
    (h : fromNumLoop exampleEnv n ∅ cur = Except.ok (opt, cur1)) : opt.entries.length ≤ 1 := by
  have hk := fromNumLoop_keys exampleEnv n ∅ cur opt cur1 h
  have hsub : opt.keys ⊆ [str "tag_" ++ zeroUuid.val.take TagSize.toNat] := by
    intro k hk1
    rcases hk k hk1 with ⟨j, hj⟩ | h0
    · rw [hj]
      exact List.mem_singleton.mpr rfl
    · exact absurd h0 (by simp)
  have h1 := (List.subperm_of_subset opt.keys_nodup hsub).length_le
  have e : opt.keys.length = opt.entries.length := List.length_map _ _
  rw [e, List.length_singleton] at h1
  exact h1

theorem buildCatalog_budget_error (gas fuel : Nat) (c : ConfigSet) (cur : Cursor)
    (hot : 2 < optionalTag c) (hnp : 1 ≤ (numPerMetricName c).toNat)
    (hsize : 0 ≤ c.MetricNameSize ∧ c.MetricNameSize ≤ 36) (hpos : 0 < c.NumMetrics)
    (hmax : ¬ (c.NumMetrics < 0 ∨ maxLen < c.NumMetrics)) :
    ∃ f, buildCatalog exampleEnv gas fuel c cur = Except.error f := by
  rcases hA : NewTagsFactoryFromList exampleEnv c.MandatoryTags cur with f | ⟨mand, cur1⟩
  · exact ⟨f, by simp only [buildCatalog, hA]⟩
  · rcases hB : NewTagsFactoryFromNum exampleEnv (optionalTag c) cur1 with f | ⟨opt, cur2⟩
    · exact ⟨f, by simp only [buildCatalog, hA, hB]⟩
    · have hlen := exampleEnv_optional_keys _ cur1 opt cur2 hB
      have hot1 : (opt.entries.length : Int) + 1 < optionalTag c := by omega
      obtain ⟨f, hf⟩ := catalogLoop_tag_error exampleEnv gas c mand opt (optionalTag c)
        (limitInt c) (limitFloat c) (numPerMetricName c) hnp hsize hpos
        (List.replicate c.NumMetrics.toNat none)
        (tagString_stuck exampleEnv gas mand opt _ hot1) fuel cur2
      exact ⟨f, by simp only [buildCatalog, hA, hB, fillCatalog, if_neg hmax, hf]⟩

/-- C9 (counterexample): one mandatory key `host` with two values and the budget
`TagsPerMetric = -2^63`, below the number of mandatory keys. The difference
`optionalTag` wraps to `2^63 - 1`: `NewTagsFactoryFromNum` is asked for that many
optional tags and `KVSomeTags` for that many entries, and with the uuids of
`exampleEnv` the build does not return a metric list, whatever the number of
turns allowed to its loops. -/
theorem C9_budget_wraps :
    (minBudgetConfig.TagsPerMetric < (minBudgetConfig.MandatoryTags.keys.length : Int) ∧
      ∀ e ∈ minBudgetConfig.MandatoryTags.entries, 1 ≤ e.2) ∧
    optionalTag minBudgetConfig = 9223372036854775807 ∧
    ∀ gas fuel, ∃ f,
      buildCatalog exampleEnv gas fuel minBudgetConfig Cursor.zero = Except.error f :=
  ⟨⟨by decide, by decide⟩, by decide, fun gas fuel =>
    buildCatalog_budget_error gas fuel minBudgetConfig Cursor.zero (by decide) (by decide)
      (by decide) (by decide) (by decide)⟩

end metrics
end Datagen
